import Mathlib

/-!
Verification of the Next_Prism media-ingestion orchestrator core against its
specification.  The Python source is shallowly embedded: paths and file
contents are modelled over `String` and `Nat`, the filesystem is an explicit
association list from paths to contents, hashing is an abstract total function
of the content (the byte-level SHA-256 of the source is deterministic in the
content, which is all the claims use), and external I/O outcomes that the
source observes (corruption during a move, a failing copy or unlink, command
exit states) are passed in as explicit oracle parameters.
-/

set_option maxHeartbeats 1000000

/-! ## String and path helpers

The Python source manipulates paths through `pathlib.Path` and `os.path`.
We model the operations it uses over `List Char` data of Lean strings:
`basename` (the part after the final slash), `stem` and `suffix`
(CPython rule: the suffix starts at the last dot of the name provided that
dot is neither the first nor the last character of the name), lower-casing,
and the startswith / endswith / substring tests used by the watchers. -/

def charsBaseName (l : List Char) : List Char :=
  ((l.splitOn '/').getLastD []).map id

def baseName (s : String) : String :=
  ⟨charsBaseName s.data⟩

/-- Index (counted from the start) of the last dot of `l`, if any. -/
def lastDotIdx (l : List Char) : Option Nat :=
  match l.reverse.findIdx? (fun c => c = '.') with
  | none => none
  | some k => some (l.length - 1 - k)

/-- CPython `PurePath.suffix` of a file NAME: the part from the last dot,
provided that dot is neither at index 0 nor the final character. -/
def pySuffix (name : String) : String :=
  let l := name.data
  match lastDotIdx l with
  | none => ""
  | some i => if 0 < i ∧ i + 1 < l.length then ⟨l.drop i⟩ else ""

/-- CPython `PurePath.stem` of a file NAME: the name minus `pySuffix`. -/
def pyStem (name : String) : String :=
  let l := name.data
  match lastDotIdx l with
  | none => name
  | some i => if 0 < i ∧ i + 1 < l.length then ⟨l.take i⟩ else name

def lowerStr (s : String) : String :=
  ⟨s.data.map Char.toLower⟩

/-- Python `str.startswith` for a one-character test. -/
def startsWithChar (s : String) (c : Char) : Bool :=
  match s.data with
  | [] => false
  | d :: _ => d = c

/-- Python `str.endswith`. -/
def endsWithStr (s t : String) : Bool :=
  t.data.isSuffixOf s.data

/-- Python `sub in s` substring containment. -/
def containsStr (s t : String) : Bool :=
  s.data.tails.any (fun tail => t.data.isPrefixOf tail)

/-- Python `str.lstrip` with argument a single dot: drop every leading dot. -/
def lstripDots (s : String) : String :=
  ⟨s.data.dropWhile (fun c => c = '.')⟩

/-- Components of a path, split at slashes. -/
def pathParts (s : String) : List (List Char) :=
  s.data.splitOn '/'

/-- Join path components with slashes (inverse of `pathParts`). -/
def joinParts : List (List Char) → List Char
  | [] => []
  | [p] => p
  | p :: rest => p ++ '/' :: joinParts rest

/-- Directory part of a path: everything before the final slash
(empty when the path has a single component). -/
def dirName (s : String) : String :=
  ⟨joinParts (pathParts s).dropLast⟩

/-- Python `Path(p).parent != Path(".")`: true iff the path has a
directory component. -/
def hasParentDir (s : String) : Bool :=
  (pathParts s).length ≥ 2

/-- Join a directory and a file name; an empty directory (Python `.`)
yields the bare name. -/
def joinDir (d nm : String) : String :=
  if d = "" then nm else d ++ "/" ++ nm

/-! ## Filesystem model

A flat association list from absolute path strings to file contents
(abstracted to `Nat`).  Regular files only: that is all the claims touch. -/

abbrev Fs := List (String × Nat)

def fsLookup (fs : Fs) (p : String) : Option Nat :=
  match fs with
  | [] => none
  | (q, c) :: rest => if q = p then some c else fsLookup rest p

def fsMem (fs : Fs) (p : String) : Bool :=
  (fsLookup fs p).isSome

def fsErase (fs : Fs) (p : String) : Fs :=
  fs.filter (fun e => !(e.1 = p : Bool))

/-- Writing a file: replaces any previous content at the path. -/
def fsWrite (fs : Fs) (p : String) (c : Nat) : Fs :=
  (p, c) :: fsErase fs p

/-! ## Proxy discovery (src/docker_interface/proxy_discovery.py)

`ProxyService` mirrors the dataclass; `ProxyDiscovery` keeps the fields read
by the cached-lookup path (`cache_ttl`, `max_error_count`, `_cache`).  Times
are integers; `time.time()` is passed in as `now`. -/

structure ProxyService where
  service_name : String
  service_type : String
  hostname : String
  port : Nat
  ip_address : Option String
  last_check : Int
  is_healthy : Bool
  error_count : Nat
deriving DecidableEq, Repr

structure ProxyDiscovery where
  cache_ttl : Int
  max_error_count : Nat
  cache : List (String × ProxyService)
deriving DecidableEq, Repr

def cacheLookup (c : List (String × ProxyService)) (k : String) : Option ProxyService :=
  match c with
  | [] => none
  | (q, v) :: rest => if q = k then some v else cacheLookup rest k

def cacheErase (c : List (String × ProxyService)) (k : String) : List (String × ProxyService) :=
  c.filter (fun e => !(e.1 = k : Bool))

/-- `ProxyDiscovery.get_cached_proxy`.  Returns the possibly-found service and
the updated discovery state.  Faithful to the source: the TTL-expiry branch
returns `None` WITHOUT deleting the cache entry; only the error-count branch
deletes it. -/
def get_cached_proxy (st : ProxyDiscovery) (service_type : String) (now : Int) :
    Option ProxyService × ProxyDiscovery :=
  match cacheLookup st.cache service_type with
  | none => (none, st)
  | some proxy =>
    let age := now - proxy.last_check
    if age > st.cache_ttl then
      (none, st)
    else if proxy.error_count ≥ st.max_error_count then
      (none, { st with cache := cacheErase st.cache service_type })
    else
      (some proxy, st)

/-- `ProxyDiscovery.mark_proxy_error`: increments the error counter of the
cached entry, if present. -/
def mark_proxy_error (st : ProxyDiscovery) (service_type : String) : ProxyDiscovery :=
  match cacheLookup st.cache service_type with
  | none => st
  | some proxy =>
    { st with cache :=
        (service_type, { proxy with error_count := proxy.error_count + 1 }) ::
          cacheErase st.cache service_type }

/-- `ProxyDiscovery.mark_proxy_success`: resets the error counter and
refreshes the health fields of the cached entry, if present. -/
def mark_proxy_success (st : ProxyDiscovery) (service_type : String) (now : Int) : ProxyDiscovery :=
  match cacheLookup st.cache service_type with
  | none => st
  | some proxy =>
    { st with cache :=
        (service_type,
          { proxy with error_count := 0, last_check := now, is_healthy := true }) ::
          cacheErase st.cache service_type }

/-! ## File operations (src/utils/file_ops.py)

`calculate_file_hash` reads the file in chunks and digests its bytes; in the
model the digest is an abstract total function `hashF` of the content, which
preserves exactly what the claims rely on: the digest is deterministic in the
content.  `shutil.move` is modelled as atomic removal of the source plus a
write of `written` bytes at the destination; the oracle `written` equals the
source content on a faultless move and captures I/O corruption otherwise
(the only way the post-move verification of the source can fail). -/

structure MoveOut where
  success : Bool
  dest : Option String
  err : Option String
deriving DecidableEq, Repr

/-- `safe_move_file(source, destination_dir, verify_hash, collision_strategy)`.
`ts` is the `datetime.now().strftime` timestamp used by the rename branch.
Note two facts of the source mirrored here: the rename branch appends the
timestamp ONCE (no existence re-check, no counter loop), and the
hash-mismatch branch returns a failure WITHOUT removing the moved file. -/
def safe_move_file (hashF : Nat → Nat) (fs : Fs) (source destDir : String)
    (verify : Bool) (strategy : String) (ts : String) (written : Nat) :
    Fs × MoveOut :=
  match fsLookup fs source with
  | none => (fs, ⟨false, none, some "Source file not found"⟩)
  | some srcContent =>
    let name := baseName source
    let dest0 := joinDir destDir name
    if fsMem fs dest0 ∧ strategy = "skip" then
      (fs, ⟨false, none, some "File already exists (skipped)"⟩)
    else
      let destPath :=
        if fsMem fs dest0 ∧ strategy = "rename" then
          joinDir destDir (pyStem name ++ "_" ++ ts ++ pySuffix name)
        else dest0
      let fs1 := fsWrite (fsErase fs source) destPath written
      if verify ∧ hashF written ≠ hashF srcContent then
        (fs1, ⟨false, none, some "File integrity check failed after move"⟩)
      else
        (fs1, ⟨true, some destPath, none⟩)

/-- `archive_file(source, archive_base_path, preserve_structure)`: copies the
source into the archive, preserving the immediate parent directory name when
requested, adding a timestamp suffix on collision.  `copyOk` is the oracle
for the `shutil.copy2` call (false models an I/O error, the `except` path). -/
def archive_file (fs : Fs) (source archiveBase : String) (preserveStructure : Bool)
    (ts : String) (copyOk : Bool) : Fs × MoveOut :=
  match fsLookup fs source with
  | none => (fs, ⟨false, none, some "Source file not found"⟩)
  | some srcContent =>
    let target0 :=
      if preserveStructure ∧ hasParentDir source then
        joinDir archiveBase (baseName (dirName source)) ++ "/" ++ baseName source
      else
        joinDir archiveBase (baseName source)
    let target :=
      if fsMem fs target0 then
        joinDir (dirName target0)
          (pyStem (baseName target0) ++ "_" ++ ts ++ pySuffix (baseName target0))
      else target0
    if copyOk then
      (fsWrite fs target srcContent, ⟨true, some target, none⟩)
    else
      (fs, ⟨false, none, some "Archive error"⟩)

/-- `is_image_file(file_path, extensions)`: extension of the path, lowered,
leading dots stripped, membership in the extension list. -/
def is_image_file (path : String) (extensions : List String) : Bool :=
  lstripDots (lowerStr (pySuffix (baseName path))) ∈ extensions

/-! ## FileMover (src/sync_engine/file_mover.py) -/

structure MoverConfig where
  import_path : String
  import_mode_copy : Bool
  archive_mode : Bool
  nc_data_path : String
  monitoring_archive_path : String
deriving DecidableEq, Repr

structure MoveResultM where
  success : Bool
  source_path : String
  destination_path : Option String
  archive_path : Option String
  error_message : Option String
  was_archived : Bool
  was_renamed : Bool
deriving DecidableEq, Repr

/-- Candidate names tried by `FileMover._generate_unique_filename` for a
colliding destination `p`: first the bare `_<timestamp>` suffix, then
`_<timestamp>_<counter>` for counter 1, 2, ... -/
def uniqueCandidate (p ts : String) (n : Nat) : String :=
  let nm := baseName p
  let stem := pyStem nm
  let sfx := pySuffix nm
  if n = 0 then joinDir (dirName p) (stem ++ "_" ++ ts ++ sfx)
  else joinDir (dirName p) (stem ++ "_" ++ ts ++ "_" ++ toString n ++ sfx)

/-- The `while new_path.exists()` loop of `_generate_unique_filename`.  The
Python loop is unbounded; `fuel` makes the recursion structural, and `none`
stands for divergence of the loop, which cannot occur on a finite filesystem
(there are more candidate names than files). -/
def genUniqueGo (fs : Fs) (p ts : String) : Nat → Nat → Option String
  | _, 0 => none
  | n, fuel + 1 =>
    let cand := uniqueCandidate p ts n
    if fsMem fs cand then genUniqueGo fs p ts (n + 1) fuel else some cand

/-- `FileMover._generate_unique_filename`. -/
def generate_unique_filename (fs : Fs) (p ts : String) (fuel : Nat) : Option String :=
  genUniqueGo fs p ts 0 fuel

/-- Destination chosen by `FileMover.move_to_photoprism` together with the
`was_renamed` flag: the import-directory path of the source name, replaced by
a generated unique name when it already exists. -/
def moverDest (cfg : MoverConfig) (fs : Fs) (source ts : String) (fuel : Nat) :
    Option (String × Bool) :=
  let dest0 := joinDir cfg.import_path (baseName source)
  if fsMem fs dest0 then
    (generate_unique_filename fs dest0 ts fuel).map (fun d => (d, true))
  else some (dest0, false)

/-- User directory of a source path under the data root: the first `i+1`
path components once the first `i` components match the data root. -/
def archiveUserDir (source : String) (i : Nat) : String :=
  ⟨joinParts ((pathParts source).take (i + 1))⟩

/-- Archive destination used by `FileMover._archive_original`: below the
user directory, `files/<archive_path>/<path relative to files>`. -/
def archiveTarget (cfg : MoverConfig) (source : String) (i : Nat) : String :=
  archiveUserDir source i ++ "/files/" ++ cfg.monitoring_archive_path ++ "/" ++
    ⟨source.data.drop (archiveUserDir source i ++ "/files/").length⟩

/-- `FileMover._archive_original`: locate the user directory under the
Nextcloud data root, re-root the path below `files/<archive_path>`, and move
the source there.  Returns the updated filesystem and the archive path, or
`none` on any failure (the source `except` branch). -/
def archive_original (cfg : MoverConfig) (fs : Fs) (source : String) :
    Fs × Option String :=
  match (List.range (pathParts source).length).find?
      (fun i => decide (0 < i ∧
        joinParts (List.take i (pathParts source)) = cfg.nc_data_path.data)) with
  | none => (fs, none)
  | some i =>
    if (archiveUserDir source i ++ "/files/").data.isPrefixOf source.data then
      match fsLookup fs source with
      | none => (fs, none)
      | some sc =>
        (fsWrite (fsErase fs source) (archiveTarget cfg source i) sc,
          some (archiveTarget cfg source i))
    else (fs, none)

/-- The success tail of `FileMover.move_to_photoprism`: the optional
archiving of the original (copy mode with archive enabled only —
`_archive_original` catches its own exceptions) followed by the success
result carrying the destination, the archive path and the flags. -/
def moverFinish (cfg : MoverConfig) (fs1 : Fs) (source dest : String)
    (wasRenamed : Bool) : Fs × MoveResultM :=
  let archStep :=
    if cfg.import_mode_copy ∧ cfg.archive_mode then archive_original cfg fs1 source
    else (fs1, none)
  (archStep.1,
    ⟨true, source, some dest, archStep.2, none, archStep.2.isSome, wasRenamed⟩)

/-- `FileMover.move_to_photoprism(source_file, verify_hash)`.  Oracles for
every fallible step of the source: `ts` the timestamp used for collision
renaming, `fuel` the bound for the (unbounded) collision loop, `hasSpace`
the `os.statvfs` disk-space verdict, `srcHashOk` whether
`calculate_hash(source_file)` succeeds — its `except` leaves
`source_hash = None`, so the later `if verify_hash and source_hash:` check
silently SKIPS verification — `moveOk` whether `mkdir` and
`shutil.copy2`/`shutil.move` complete without raising (`landed` is what the
aborted operation left at the destination, `none` for nothing; the source
survives, since `shutil.move` unlinks it only as its final step), and
`destHashOk` whether `calculate_hash(destination_file)` succeeds — a raise
there lands in the outer `except`, which returns failure with the moved
file still at the destination.  On a hash mismatch `_rollback_move` unlinks
the destination; `unlinkOk` is that unlink's verdict, and its failure is
swallowed by the rollback's own `except`, leaving the destination file.
`written` is the bytes landing at the destination on a completed move
(equal to the source content on a faultless one). -/
def move_to_photoprism (hashF : Nat → Nat) (cfg : MoverConfig) (fs : Fs)
    (source : String) (verify : Bool) (ts : String) (fuel : Nat)
    (hasSpace srcHashOk moveOk : Bool) (landed : Option Nat)
    (destHashOk unlinkOk : Bool) (written : Nat) : Fs × MoveResultM :=
  match fsLookup fs source with
  | none => (fs, ⟨false, source, none, none, some "Source file does not exist", false, false⟩)
  | some srcContent =>
    match moverDest cfg fs source ts fuel with
    | none =>
      (fs, ⟨false, source, none, none, some "collision loop divergence", false, false⟩)
    | some (dest, wasRenamed) =>
      if ¬ hasSpace then
        (fs, ⟨false, source, none, none, some "Insufficient disk space at destination", false, false⟩)
      else if ¬ moveOk then
        (match landed with
          | none => fs
          | some b => fsWrite fs dest b,
         ⟨false, source, none, none, some "Error moving file", false, false⟩)
      else
        let fs1 :=
          if cfg.import_mode_copy then fsWrite fs dest written
          else fsWrite (fsErase fs source) dest written
        if verify ∧ srcHashOk then
          if ¬ destHashOk then
            (fs1, ⟨false, source, none, none, some "Error moving file", false, false⟩)
          else if hashF written ≠ hashF srcContent then
            (if unlinkOk then fsErase fs1 dest else fs1,
              ⟨false, source, none, none, some "Hash verification failed after move", false, false⟩)
          else moverFinish cfg fs1 source dest wasRenamed
        else moverFinish cfg fs1 source dest wasRenamed

/-! ## Sync engine (src/core/sync_engine.py)

`DeduplicationCache.hash_cache` maps digests to lists of destination paths.
The float `file_size_mb` field is omitted (floating point is outside the
model and no claim touches it).  `os.remove` and `shutil.copy2` can fail at
runtime; their verdicts are the `removeOk` / `archiveCopyOk` oracles. -/

inductive SyncStatus where
  | pending
  | hashing
  | checking_duplicate
  | moving
  | archiving
  | completed
  | failed
  | skipped_duplicate
deriving DecidableEq, Repr

structure SyncResultS where
  source_path : String
  status : SyncStatus
  destination_path : Option String
  error_message : Option String
  file_hash : Option Nat
  is_duplicate : Bool
deriving DecidableEq, Repr

abbrev DedupCache := List (Nat × List String)

def dedupeLookup (cache : DedupCache) (h : Nat) : Option (List String) :=
  match cache with
  | [] => none
  | (k, v) :: rest => if k = h then some v else dedupeLookup rest h

/-- `DeduplicationCache.is_duplicate`. -/
def cache_is_duplicate (cache : DedupCache) (h : Nat) : Bool × Option String :=
  match dedupeLookup cache h with
  | some existing => (true, existing.head?)
  | none => (false, none)

/-- `DeduplicationCache.add_file`. -/
def cache_add_file : DedupCache → String → Nat → DedupCache
  | [], path, h => [(h, [path])]
  | (k, v) :: rest, path, h =>
    if k = h then (k, v ++ [path]) :: rest else (k, v) :: cache_add_file rest path h

structure SyncStats where
  files_processed : Nat
  files_moved : Nat
  duplicates_skipped : Nat
  errors : Nat
deriving DecidableEq, Repr

structure FolderCfg where
  path : String
  archive_moved : Bool
  archive_path : Option String
deriving DecidableEq, Repr

/-- `SyncEngine._archive_source_file`: archive into the configured base (or
the default `<folder>/.archive`), then delete the original on success.
Returns the updated filesystem and whether archiving succeeded.  Faithful to
the source: a failing final `os.remove` is only logged, and the function
still returns success. -/
def archive_source_file (fs : Fs) (cfg : FolderCfg) (file_path ts : String)
    (archiveCopyOk removeOk : Bool) : Fs × Bool :=
  let base :=
    match cfg.archive_path with
    | some b => b
    | none => cfg.path ++ "/.archive"
  let r := archive_file fs file_path base true ts archiveCopyOk
  if r.2.success then
    (if removeOk then fsErase r.1 file_path else r.1, true)
  else
    (r.1, false)

/-- `SyncEngine.sync_file(file_path, folder_config, skip_dedupe)` over the
explicit state (filesystem, dedup cache, stats).  `import_path` is
`self.photoprism_import_path`.  Faithful to the source: on a duplicate hit
the result is SKIPPED_DUPLICATE regardless of whether the archive/delete of
the source succeeded (the return value of `_archive_source_file` and any
`os.remove` error are ignored). -/
def sync_file (hashF : Nat → Nat) (fs : Fs) (cache : DedupCache) (stats : SyncStats)
    (file_path : String) (cfg : FolderCfg) (import_path : String)
    (skipDedupe : Bool) (ts : String) (archiveCopyOk removeOk : Bool)
    (written : Nat) : Fs × DedupCache × SyncStats × SyncResultS :=
  match fsLookup fs file_path with
  | none =>
    (fs, cache, stats, ⟨file_path, .failed, none, some "File not found", none, false⟩)
  | some content =>
    let fileHash := hashF content
    let dup := if skipDedupe then (false, none) else cache_is_duplicate cache fileHash
    if dup.1 then
      let stats1 := { stats with duplicates_skipped := stats.duplicates_skipped + 1 }
      let fs1 :=
        if cfg.archive_moved then
          (archive_source_file fs cfg file_path ts archiveCopyOk removeOk).1
        else
          if removeOk then fsErase fs file_path else fs
      (fs1, cache, stats1,
        ⟨file_path, .skipped_duplicate, none, none, some fileHash, true⟩)
    else
      let mv := safe_move_file hashF fs file_path import_path true "rename" ts written
      if ¬ mv.2.success then
        (mv.1, cache, { stats with errors := stats.errors + 1 },
          ⟨file_path, .failed, none, mv.2.err, some fileHash, false⟩)
      else
        match mv.2.dest with
        | none =>
          (mv.1, cache, { stats with errors := stats.errors + 1 },
            ⟨file_path, .failed, none, mv.2.err, some fileHash, false⟩)
        | some destPath =>
          let cache1 := cache_add_file cache destPath fileHash
          let stats1 :=
            { stats with files_processed := stats.files_processed + 1,
                         files_moved := stats.files_moved + 1 }
          (mv.1, cache1, stats1,
            ⟨file_path, .completed, some destPath, none, some fileHash, false⟩)

/-! ## Orchestrator indexing trigger (src/core/orchestrator.py)

`_trigger_indexing` inspects the batch results and issues the downstream
commands.  Each remote command either returns a result with a success flag
or raises (all three calls sit in one `try` block); `CmdOutcome` captures
the three cases, and the function returns the list of commands actually
issued, in order. -/

inductive CmdOutcome where
  | ok
  | failed
  | exc
deriving DecidableEq, Repr

inductive IdxCmd where
  | ppImport
  | ncScan
  | ncMemories
deriving DecidableEq, Repr

/-- `Orchestrator._trigger_indexing(results)`: skip everything when no result
is COMPLETED; otherwise run PhotoPrism import, and only when it returns
success run the Nextcloud scan and then — regardless of the scan RESULT,
provided the scan did not raise — the Memories index. -/
def trigger_indexing (results : List SyncStatus) (pp scan : CmdOutcome) : List IdxCmd :=
  if results.countP (fun r => r == SyncStatus.completed) = 0 then []
  else
    match pp with
    | .exc => [.ppImport]
    | .failed => [.ppImport]
    | .ok =>
      match scan with
      | .exc => [.ppImport, .ncScan]
      | _ => [.ppImport, .ncScan, .ncMemories]

/-- `Orchestrator._process_batch` issues the trigger only for a nonempty
result list. -/
def process_batch_trigger (results : List SyncStatus) (pp scan : CmdOutcome) : List IdxCmd :=
  if results.isEmpty then [] else trigger_indexing results pp scan

/-! ## Folder watchers

Two handler implementations exist in the source.  `watcher.py` is the one
the Orchestrator instantiates (through `FolderWatcher`): its event filter is
ONLY the image-extension test.  `file_watcher.py` additionally rejects
hidden/temporary names.  Pending-file maps are insertion-ordered association
lists (CPython dict semantics); `existsF` is the `os.path.exists` oracle at
delivery time. -/

abbrev Pending := List (String × Int)

/-- Ordered dict write: refresh in place or append at the end. -/
def pendSet : Pending → String → Int → Pending
  | [], p, t => [(p, t)]
  | (q, u) :: rest, p, t =>
    if q = p then (q, t) :: rest else (q, u) :: pendSet rest p t

def pendHas (pend : Pending) (p : String) : Bool :=
  pend.any (fun e => e.1 = p)

/-- `watcher.PhotoFileHandler._handle_file_event` (src/monitoring/watcher.py):
the only filter is the image-extension test. -/
def watcherHandleEvent (extensions : List String) (pend : Pending) (path : String)
    (now : Int) : Pending :=
  if is_image_file path extensions then pendSet pend path now else pend

/-- `watcher.PhotoFileHandler.on_created`. -/
def watcherOnCreated (extensions : List String) (pend : Pending) (isDir : Bool)
    (path : String) (now : Int) : Pending :=
  if isDir then pend else watcherHandleEvent extensions pend path now

/-- `watcher.PhotoFileHandler.on_modified`: refreshes the timestamp of an
already-pending path. -/
def watcherOnModified (pend : Pending) (isDir : Bool) (path : String) (now : Int) : Pending :=
  if isDir then pend
  else if pendHas pend path then pendSet pend path now else pend

/-- `watcher.PhotoFileHandler.process_pending`: remove entries stable for the
debounce window and deliver those still existing on disk.  Returns the new
pending map and the delivered paths, in order. -/
def watcherProcessPending (pend : Pending) (now debounce : Int)
    (existsF : String → Bool) : Pending × List String :=
  let stable := pend.filter (fun e => decide (now - e.2 ≥ debounce))
  let remaining := pend.filter (fun e => !(decide (now - e.2 ≥ debounce)))
  (remaining, (stable.map (fun e => e.1)).filter existsF)

/-- `file_watcher.PhotoFileHandler.PHOTO_EXTENSIONS`. -/
def PHOTO_EXTENSIONS : List String :=
  [".jpg", ".jpeg", ".png", ".gif", ".bmp", ".tiff", ".tif",
   ".heic", ".heif", ".webp",
   ".raw", ".cr2", ".nef", ".arw", ".dng", ".orf", ".rw2",
   ".raf", ".sr2", ".pef", ".crw"]

/-- `file_watcher.PhotoFileHandler._is_photo_file`. -/
def fwIsPhotoFile (path : String) : Bool :=
  lowerStr (pySuffix (baseName path)) ∈ PHOTO_EXTENSIONS

/-- `file_watcher.PhotoFileHandler._is_hidden_or_temp`. -/
def is_hidden_or_temp (path : String) : Bool :=
  let filename := baseName path
  startsWithChar filename '.' || startsWithChar filename '~' ||
    endsWithStr filename ".tmp" || endsWithStr filename ".part" ||
    containsStr path "/.~"

/-- `file_watcher.PhotoFileHandler.on_created` (same body as `on_modified`). -/
def fwOnEvent (pend : Pending) (isDir : Bool) (path : String) (now : Int) : Pending :=
  if isDir then pend
  else if ¬ fwIsPhotoFile path then pend
  else if is_hidden_or_temp path then pend
  else pendSet pend path now

/-- `file_watcher.PhotoFileHandler.process_pending_files`. -/
def fwProcessPending (pend : Pending) (now debounce : Int)
    (existsF : String → Bool) : Pending × List String :=
  let stable := pend.filter (fun e => decide (now - e.2 ≥ debounce))
  let remaining := pend.filter (fun e => !(decide (now - e.2 ≥ debounce)))
  (remaining, (stable.map (fun e => e.1)).filter existsF)

/-! ## SSH connection pool (src/docker_interface/ssh_proxy.py)

`ConnPool` is the list `self._pool[(host, port)]` for one endpoint.  The
`alive` flag models `conn.client.get_transport().is_active()`; `cid`
identifies the underlying client object. -/

structure SSHConnection where
  cid : Nat
  host : String
  port : Nat
  last_used : Int
  in_use : Bool
  error_count : Nat
  alive : Bool
deriving DecidableEq, Repr

abbrev ConnPool := List SSHConnection

/-- The idle-reuse scan at the top of `_get_connection`: first connection
that is not in use and whose transport is active is marked in-use, its
last-used time refreshed and its error count RESET, and returned. -/
def scanIdle (pool : ConnPool) (now : Int) : Option (SSHConnection × ConnPool) :=
  match pool with
  | [] => none
  | c :: rest =>
    if ¬ c.in_use ∧ c.alive then
      let c' := { c with in_use := true, last_used := now, error_count := 0 }
      some (c', c' :: rest)
    else
      match scanIdle rest now with
      | some (r, rest') => some (r, c :: rest')
      | none => none

/-- `_cleanup_connections`: drop connections that are stale (idle past the
idle timeout) or whose transport is dead. -/
def cleanupConnections (pool : ConnPool) (now idleTimeout : Int) : ConnPool :=
  pool.filter (fun c => !((!c.in_use && decide (now - c.last_used > idleTimeout)) || !c.alive))

inductive AcquireRes where
  | reused (c : SSHConnection) (pool : ConnPool)
  | created (c : SSHConnection) (pool : ConnPool)
  | connectFailed (pool : ConnPool)
  | mustWait (pool : ConnPool)
deriving DecidableEq, Repr

/-- The locked section of `_get_connection`: idle-reuse scan, cleanup,
creation below the connection cap, otherwise fall through to the wait loop.
`connectOk` is the oracle for `client.connect`. -/
def get_connection_locked (pool : ConnPool) (now idleTimeout : Int)
    (maxConnections : Nat) (host : String) (port : Nat) (newCid : Nat)
    (connectOk : Bool) : AcquireRes :=
  match scanIdle pool now with
  | some (c, pool') => .reused c pool'
  | none =>
    let cleaned := cleanupConnections pool now idleTimeout
    if cleaned.length < maxConnections then
      if connectOk then
        let c : SSHConnection := ⟨newCid, host, port, now, true, 0, true⟩
        .created c (cleaned ++ [c])
      else .connectFailed cleaned
    else .mustWait cleaned

/-- One iteration of the wait loop at the bottom of `_get_connection`,
running on the pool as observed after the 1-second sleep (other threads may
have released connections meanwhile).  The first idle connection is marked
in-use and its last-used time refreshed — its error count is NOT reset and
its transport is NOT tested. -/
def wait_scan (pool : ConnPool) (now : Int) : Option (SSHConnection × ConnPool) :=
  match pool with
  | [] => none
  | c :: rest =>
    if ¬ c.in_use then
      let c' := { c with in_use := true, last_used := now }
      some (c', c' :: rest)
    else
      match wait_scan rest now with
      | some (r, rest') => some (r, c :: rest')
      | none => none

/-- `_release_connection(conn)`: mark the connection idle and refresh its
last-used time.  Nothing else: no error-count check, no close, no removal. -/
def release_connection (pool : ConnPool) (c : SSHConnection) (now : Int) : ConnPool :=
  pool.map (fun x => if x.cid = c.cid then { x with in_use := false, last_used := now } else x)

def updateConn (pool : ConnPool) (c : SSHConnection) : ConnPool :=
  pool.map (fun x => if x.cid = c.cid then c else x)

def removeConn (pool : ConnPool) (cid : Nat) : ConnPool :=
  pool.filter (fun x => !(x.cid = cid : Bool))

inductive ExecOutcome where
  | result (exitCode : Nat)
  | exc
deriving DecidableEq, Repr

/-- The body of one `execute_command` attempt after a connection has been
acquired: bookkeeping on the exit code or exception, the error-threshold
close-and-remove in the exception handler, and the `finally` release.
Returns `some success` when the attempt returned, `none` when it raised
(and the retry loop continues). -/
def execute_attempt (pool : ConnPool) (conn : SSHConnection) (now : Int)
    (outcome : ExecOutcome) : Option Bool × ConnPool :=
  match outcome with
  | .result ec =>
    let conn' :=
      if ec = 0 then { conn with error_count := 0 }
      else { conn with error_count := conn.error_count + 1 }
    let pool1 := updateConn pool conn'
    (some (ec = 0), release_connection pool1 conn' now)
  | .exc =>
    let conn' := { conn with error_count := conn.error_count + 1 }
    if conn'.error_count ≥ 3 then
      let pool1 := removeConn pool conn'.cid
      (none, release_connection pool1 conn' now)
    else
      let pool1 := updateConn pool conn'
      (none, release_connection pool1 conn' now)

/-! ## Sync queue (src/core/sync_queue.py)

`queue.PriorityQueue` stores `SyncItem`s in a CPython `heapq` binary heap.
`@dataclass(order=True)` with `compare=True` only on `priority` makes `<` on
items exactly `<` on priorities — the timestamp and all other fields are
excluded from comparison.  The heapq functions are translated verbatim; the
loops of `_siftdown` and `_siftup` run on explicit fuel chosen so that the
zero-fuel fallback coincides with the loop-exit action (`_siftdown` iterates
at most `pos` times since the position strictly decreases, `_siftup` at most
`len` times since the position strictly increases and the loop requires
`2*pos+1 < len`), making the fuelled functions extensionally identical to
the unbounded loops. -/

structure SyncItem where
  priority : Nat
  file_path : String
  source_label : String
  timestamp : Nat
  manual_trigger : Bool
deriving DecidableEq, Repr

/-- `SyncItem.__lt__`: comparison on the single `compare=True` field. -/
def itemLT (a b : SyncItem) : Bool :=
  a.priority < b.priority

/-- `heapq._siftdown(heap, startpos, pos)` with `newitem` the value read from
`heap[pos]` on entry, fuelled by `pos`. -/
def siftdownGo (startpos : Nat) (newitem : SyncItem) :
    Nat → List SyncItem → Nat → List SyncItem
  | 0, heap, pos => heap.set pos newitem
  | fuel + 1, heap, pos =>
    if startpos < pos then
      match heap[(pos - 1) / 2]? with
      | some parent =>
        if itemLT newitem parent then
          siftdownGo startpos newitem fuel (heap.set pos parent) ((pos - 1) / 2)
        else heap.set pos newitem
      | none => heap.set pos newitem
    else heap.set pos newitem

/-- `heapq.heappush(heap, item)`: append, then sift down from the last
index. -/
def heappush (heap : List SyncItem) (item : SyncItem) : List SyncItem :=
  siftdownGo 0 item heap.length (heap ++ [item]) heap.length

/-- Child selection in the `_siftup` loop: the left child, unless a right
child exists and `not heap[left] < heap[right]`. -/
def pickChild (heap : List SyncItem) (childpos : Nat) : Nat :=
  let rightpos := childpos + 1
  if rightpos < heap.length then
    match heap[childpos]?, heap[rightpos]? with
    | some lc, some rc => if itemLT lc rc then childpos else rightpos
    | _, _ => childpos
  else childpos

/-- The `while childpos < endpos` loop of `heapq._siftup`: move the chosen
child up into `pos` and descend, until `pos` has no child.  Fuelled by the
heap length. -/
def siftupGo : Nat → List SyncItem → Nat → List SyncItem × Nat
  | 0, heap, pos => (heap, pos)
  | fuel + 1, heap, pos =>
    if 2 * pos + 1 < heap.length then
      let c := pickChild heap (2 * pos + 1)
      match heap[c]? with
      | some cv => siftupGo fuel (heap.set pos cv) c
      | none => (heap, pos)
    else (heap, pos)

/-- `heapq._siftup(heap, pos)`: Floyd sift-to-leaf, write `newitem` at the
final hole, then `_siftdown` back towards `pos`. -/
def siftup (heap : List SyncItem) (pos : Nat) : List SyncItem :=
  match heap[pos]? with
  | some newitem =>
    let r := siftupGo heap.length heap pos
    siftdownGo pos newitem r.2 (r.1.set r.2 newitem) r.2
  | none => heap

/-- `heapq.heappop(heap)`: pop the last element; if the heap is still
nonempty, replace the root with it and sift up.  `none` models the
`IndexError` on an empty heap (`queue.Empty` at the `Queue` layer). -/
def heappop (heap : List SyncItem) : Option (SyncItem × List SyncItem) :=
  match heap.getLast? with
  | none => none
  | some lastelt =>
    let rest := heap.dropLast
    match rest[0]? with
    | none => some (lastelt, [])
    | some returnitem => some (returnitem, siftup (rest.set 0 lastelt) 0)

/-- `Priority` (an `IntEnum`): MANUAL=0, HIGH=1, NORMAL=2, LOW=3. -/
inductive Priority where
  | manual
  | high
  | normal
  | low
deriving DecidableEq, Repr

def Priority.value : Priority → Nat
  | .manual => 0
  | .high => 1
  | .normal => 2
  | .low => 3

structure SyncQueue where
  heap : List SyncItem
  maxsize : Nat
  total_enqueued : Nat
  total_processed : Nat
deriving DecidableEq, Repr

def SyncQueue.empty (maxsize : Nat) : SyncQueue :=
  ⟨[], maxsize, 0, 0⟩

/-- `SyncQueue.enqueue(file_path, source_label, priority, manual)`: a manual
trigger forces `Priority.MANUAL`; `put_nowait` raises `queue.Full` iff the
queue is bounded and at capacity (then the item is dropped and `False`
returned).  `now` is the `datetime.now()` default timestamp. -/
def SyncQueue.enqueue (q : SyncQueue) (file_path source_label : String)
    (priority : Priority) (manual : Bool) (now : Nat) : SyncQueue × Bool :=
  let priority := if manual then Priority.manual else priority
  let item : SyncItem := ⟨priority.value, file_path, source_label, now, manual⟩
  if 0 < q.maxsize ∧ q.maxsize ≤ q.heap.length then
    (q, false)
  else
    ({ q with heap := heappush q.heap item,
              total_enqueued := q.total_enqueued + 1 }, true)

/-- `SyncQueue.dequeue`: pop or `None` on empty. -/
def SyncQueue.dequeue (q : SyncQueue) : Option SyncItem × SyncQueue :=
  match heappop q.heap with
  | none => (none, q)
  | some (it, h) =>
    (some it, { q with heap := h, total_processed := q.total_processed + 1 })

/-- Repeated `heappop` until empty, fuelled by the heap length (each pop
removes exactly one element, so the fuel is exact). -/
def heapDrainGo : Nat → List SyncItem → List SyncItem
  | 0, _ => []
  | fuel + 1, heap =>
    match heappop heap with
    | none => []
    | some (x, r) => x :: heapDrainGo fuel r

/-- The full dequeue order of a heap. -/
def heapDrain (heap : List SyncItem) : List SyncItem :=
  heapDrainGo heap.length heap

/-- Arguments of one `enqueue` call, for building queue states. -/
structure EnqueueArgs where
  file_path : String
  source_label : String
  priority : Priority
  manual : Bool
  now : Nat
deriving DecidableEq, Repr

/-- The queue state after a sequence of `enqueue` calls on a fresh queue. -/
def buildQueue (maxsize : Nat) (ops : List EnqueueArgs) : SyncQueue :=
  ops.foldl
    (fun q a => (q.enqueue a.file_path a.source_label a.priority a.manual a.now).1)
    (SyncQueue.empty maxsize)

/-! ## Heap-shape predicates used by the queue analysis -/

/-- Binary min-heap property on the priority field: every non-root entry is
at least its parent. -/
def HeapInv (l : List SyncItem) : Prop :=
  ∀ i x p, 0 < i → l[i]? = some x → l[(i - 1) / 2]? = some p →
    p.priority ≤ x.priority

/-- State of the bubble-up phase (`_siftdown`): the heap property holds on
every edge not pointing INTO the hole `pos`, the pending item `v` is below
the children of `pos`, and the parent of `pos` is below the children of
`pos`. -/
def UpInv (l : List SyncItem) (pos : Nat) (v : SyncItem) : Prop :=
  (∀ i x p, 0 < i → i ≠ pos → l[i]? = some x → l[(i - 1) / 2]? = some p →
    p.priority ≤ x.priority) ∧
  (∀ c x, (c = 2 * pos + 1 ∨ c = 2 * pos + 2) → l[c]? = some x →
    v.priority ≤ x.priority) ∧
  (0 < pos → ∀ c x p, (c = 2 * pos + 1 ∨ c = 2 * pos + 2) → l[c]? = some x →
    l[(pos - 1) / 2]? = some p → p.priority ≤ x.priority)

/-- State of the sift-to-leaf phase (`_siftup` loop): the heap property holds
on every edge whose PARENT is not the hole `pos`, and the parent of `pos` is
below the children of `pos`. -/
def DownInv (l : List SyncItem) (pos : Nat) : Prop :=
  (∀ i x p, 0 < i → (i - 1) / 2 ≠ pos → l[i]? = some x →
    l[(i - 1) / 2]? = some p → p.priority ≤ x.priority) ∧
  (0 < pos → ∀ c x p, (c = 2 * pos + 1 ∨ c = 2 * pos + 2) → l[c]? = some x →
    l[(pos - 1) / 2]? = some p → p.priority ≤ x.priority)

/-! ## Basic lemmas about the filesystem and cache maps -/

theorem fsErase_cons (r : String) (c : Nat) (rest : Fs) (p : String) :
    fsErase ((r, c) :: rest) p =
      if r = p then fsErase rest p else (r, c) :: fsErase rest p := by
  by_cases h : r = p <;> simp [fsErase, List.filter_cons, h]

theorem fsLookup_erase_self (fs : Fs) (p : String) :
    fsLookup (fsErase fs p) p = none := by
  induction fs with
  | nil => rfl
  | cons e rest ih =>
    obtain ⟨q, c⟩ := e
    rw [fsErase_cons]
    by_cases h : q = p
    · rw [if_pos h]; exact ih
    · rw [if_neg h]
      show (if q = p then some c else fsLookup (fsErase rest p) p) = none
      rw [if_neg h]; exact ih

theorem fsLookup_erase_ne (fs : Fs) (p q : String) (h : p ≠ q) :
    fsLookup (fsErase fs p) q = fsLookup fs q := by
  induction fs with
  | nil => rfl
  | cons e rest ih =>
    obtain ⟨r, c⟩ := e
    rw [fsErase_cons]
    by_cases hr : r = p
    · rw [if_pos hr]
      have hrq : r ≠ q := by rw [hr]; exact h
      show fsLookup (fsErase rest p) q = if r = q then some c else fsLookup rest q
      rw [if_neg hrq]; exact ih
    · rw [if_neg hr]
      show (if r = q then some c else fsLookup (fsErase rest p) q) =
        if r = q then some c else fsLookup rest q
      by_cases hq : r = q
      · rw [if_pos hq, if_pos hq]
      · rw [if_neg hq, if_neg hq]; exact ih

theorem fsLookup_write_self (fs : Fs) (p : String) (c : Nat) :
    fsLookup (fsWrite fs p c) p = some c := by
  simp [fsWrite, fsLookup]

theorem fsLookup_write_ne (fs : Fs) (p : String) (c : Nat) (q : String) (h : p ≠ q) :
    fsLookup (fsWrite fs p c) q = fsLookup fs q := by
  simp [fsWrite, fsLookup, h, fsLookup_erase_ne fs p q h]

theorem cacheErase_cons (q : String) (v : ProxyService)
    (rest : List (String × ProxyService)) (k : String) :
    cacheErase ((q, v) :: rest) k =
      if q = k then cacheErase rest k else (q, v) :: cacheErase rest k := by
  by_cases h : q = k <;> simp [cacheErase, List.filter_cons, h]

theorem cacheLookup_erase_self (c : List (String × ProxyService)) (k : String) :
    cacheLookup (cacheErase c k) k = none := by
  induction c with
  | nil => rfl
  | cons e rest ih =>
    obtain ⟨q, v⟩ := e
    rw [cacheErase_cons]
    by_cases h : q = k
    · rw [if_pos h]; exact ih
    · rw [if_neg h]
      show (if q = k then some v else cacheLookup (cacheErase rest k) k) = none
      rw [if_neg h]; exact ih

/-! ## Claim C6 — get_cached_proxy -/

/-- C6 (amended): `get_cached_proxy` returns the cached endpoint iff
`now - lastCheck ≤ cacheTTL` and `errorCount < maxErrors`; when the entry is
within TTL but its error count has reached the maximum the entry is deleted;
when the entry is merely TTL-expired, nothing is returned but the entry
REMAINS in the cache.  In particular an endpoint with
`errorCount ≥ maxErrors` is never returned. -/
theorem C6_get_cached_iff (st : ProxyDiscovery) (kind : String) (now : Int) :
    (∀ p, (get_cached_proxy st kind now).1 = some p ↔
        cacheLookup st.cache kind = some p ∧ now - p.last_check ≤ st.cache_ttl ∧
          p.error_count < st.max_error_count) ∧
    (∀ p, cacheLookup st.cache kind = some p → now - p.last_check ≤ st.cache_ttl →
        st.max_error_count ≤ p.error_count →
        cacheLookup (get_cached_proxy st kind now).2.cache kind = none) ∧
    (∀ p, cacheLookup st.cache kind = some p → st.cache_ttl < now - p.last_check →
        cacheLookup (get_cached_proxy st kind now).2.cache kind = some p) := by
  refine ⟨?_, ?_, ?_⟩
  · intro p
    cases h : cacheLookup st.cache kind with
    | none => simp [get_cached_proxy, h]
    | some q =>
      simp only [get_cached_proxy, h]
      by_cases h1 : now - q.last_check > st.cache_ttl
      · simp only [if_pos h1]
        constructor
        · intro hc; cases hc
        · rintro ⟨hq, h2, _⟩
          injection hq with e
          subst e
          omega
      · simp only [if_neg h1]
        by_cases h2 : q.error_count ≥ st.max_error_count
        · simp only [if_pos h2]
          constructor
          · intro hc; cases hc
          · rintro ⟨hq, _, h3⟩
            injection hq with e
            subst e
            omega
        · simp only [if_neg h2]
          constructor
          · intro hc
            injection hc with e
            subst e
            exact ⟨rfl, by omega, by omega⟩
          · rintro ⟨hq, _, _⟩
            injection hq with e
            subst e
            rfl
  · intro p h h1 h2
    simp only [get_cached_proxy, h]
    rw [if_neg (by omega), if_pos (by omega)]
    exact cacheLookup_erase_self st.cache kind
  · intro p h h1
    simp only [get_cached_proxy, h]
    rw [if_pos (by omega)]
    exact h

/-- Witness for C6 at a concrete state: a within-TTL entry whose error count
has reached the maximum is deleted. -/
theorem C6_get_cached_iff_witness :
    cacheLookup (get_cached_proxy
      ⟨60, 3, [("nextcloud", ⟨"svc", "nextcloud", "host", 2222, none, 0, true, 3⟩)]⟩
      "nextcloud" 10).2.cache "nextcloud" = none :=
  (C6_get_cached_iff
      ⟨60, 3, [("nextcloud", ⟨"svc", "nextcloud", "host", 2222, none, 0, true, 3⟩)]⟩
      "nextcloud" 10).2.1
    ⟨"svc", "nextcloud", "host", 2222, none, 0, true, 3⟩
    (by decide) (by decide) (by decide)

/-- C6 counterexample: a TTL-expired entry (`now - lastCheck = 100 > 60`,
error count 0) makes `get_cached_proxy` return nothing, yet the entry is NOT
deleted from the cache, contradicting the claim that in every non-returning
case the entry is deleted. -/
theorem C6_ttl_expiry_keeps_entry :
    (get_cached_proxy
        ⟨60, 3, [("nextcloud", ⟨"svc", "nextcloud", "host", 2222, none, 0, true, 0⟩)]⟩
        "nextcloud" 100).1 = none ∧
    cacheLookup (get_cached_proxy
        ⟨60, 3, [("nextcloud", ⟨"svc", "nextcloud", "host", 2222, none, 0, true, 0⟩)]⟩
        "nextcloud" 100).2.cache "nextcloud" =
      some ⟨"svc", "nextcloud", "host", 2222, none, 0, true, 0⟩ := by
  decide

/-! ## Claim C5 — downstream indexing chain -/

/-- C5 (amended): after a batch, the chain is issued iff some result is
COMPLETED, in the order PhotoPrism import, Nextcloud files:scan, Nextcloud
memories:index; the chain stops when the PhotoPrism import fails (or a call
raises), but a files:scan FAILURE RESULT does not stop memories:index. -/
theorem C5_indexing_chain (results : List SyncStatus) (pp scan : CmdOutcome) :
    (process_batch_trigger results pp scan ≠ [] ↔ SyncStatus.completed ∈ results) ∧
    (IdxCmd.ncScan ∈ process_batch_trigger results pp scan → pp = .ok) ∧
    (IdxCmd.ncMemories ∈ process_batch_trigger results pp scan →
      pp = .ok ∧ scan ≠ .exc) ∧
    (pp = .ok → scan ≠ .exc → SyncStatus.completed ∈ results →
      process_batch_trigger results pp scan = [.ppImport, .ncScan, .ncMemories]) ∧
    (pp = .ok → scan = .exc → SyncStatus.completed ∈ results →
      process_batch_trigger results pp scan = [.ppImport, .ncScan]) ∧
    (pp ≠ .ok → SyncStatus.completed ∈ results →
      process_batch_trigger results pp scan = [.ppImport]) := by
  have hcount : (results.countP (fun r => r == SyncStatus.completed) = 0) ↔
      SyncStatus.completed ∉ results := by
    rw [List.countP_eq_zero]
    constructor
    · intro h hc
      have := h _ hc
      simp at this
    · intro h a ha
      simp only [beq_iff_eq]
      intro heq
      exact h (heq ▸ ha)
  by_cases hres : results = []
  · subst hres
    cases pp <;> cases scan <;> simp [process_batch_trigger]
  · by_cases hc : SyncStatus.completed ∈ results
    · have h0 : ¬ (results.countP (fun r => r == SyncStatus.completed) = 0) := by
        intro h; exact (hcount.mp h) hc
      cases pp <;> cases scan <;>
        simp [process_batch_trigger, trigger_indexing, hres, h0, hc]
    · have h0 : results.countP (fun r => r == SyncStatus.completed) = 0 :=
        hcount.mpr hc
      cases pp <;> cases scan <;>
        simp [process_batch_trigger, trigger_indexing, hres, h0, hc]

/-- Witness for C5: one completed result, everything succeeding, issues the
full chain. -/
theorem C5_indexing_chain_witness :
    process_batch_trigger [SyncStatus.completed] .ok .ok =
      [.ppImport, .ncScan, .ncMemories] :=
  (C5_indexing_chain [SyncStatus.completed] .ok .ok).2.2.2.1
    rfl (by decide) (by decide)

/-- C5 counterexample: with one COMPLETED result, a successful PhotoPrism
pull-in and a HARD-FAILED Nextcloud files:scan, memories:index is still
issued — the chain does not stop at the first hard failure. -/
theorem C5_scan_failure_does_not_stop_chain :
    process_batch_trigger [SyncStatus.completed] .ok .failed =
        [.ppImport, .ncScan, .ncMemories] ∧
      IdxCmd.ncMemories ∈ process_batch_trigger [SyncStatus.completed] .ok .failed := by
  decide

/-! ## Claim C7 — hidden/temporary file rejection -/

theorem pendSet_mem (pend : Pending) (p : String) (t : Int) :
    ∀ e ∈ pendSet pend p t, e ∈ pend ∨ e = (p, t) := by
  induction pend with
  | nil => intro e he; simp [pendSet] at he; simp [he]
  | cons f rest ih =>
    obtain ⟨q, u⟩ := f
    intro e he
    by_cases h : q = p
    · simp [pendSet, h] at he
      rcases he with he | he
      · subst h; simp [he]
      · exact Or.inl (by simp [he])
    · simp [pendSet, h] at he
      rcases he with he | he
      · exact Or.inl (by simp [he])
      · rcases ih e he with h1 | h1
        · exact Or.inl (by simp [h1])
        · exact Or.inr h1

/-- C7 (amended): the `file_watcher.py` handler rejects hidden/temporary
files — such a path is never recorded in the pending map nor delivered —
while the `watcher.py` handler (the one the Orchestrator uses) applies only
the image-extension filter (see the counterexample). -/
theorem C7_hidden_temp_rejected (pend : Pending) (isDir : Bool) (path : String)
    (now debounce : Int) (existsF : String → Bool) :
    (is_hidden_or_temp path = true → fwOnEvent pend isDir path now = pend) ∧
    ((∀ e ∈ pend, is_hidden_or_temp e.1 = false) →
      ∀ e ∈ fwOnEvent pend isDir path now, is_hidden_or_temp e.1 = false) ∧
    ((∀ e ∈ pend, is_hidden_or_temp e.1 = false) →
      ∀ q ∈ (fwProcessPending pend now debounce existsF).2, is_hidden_or_temp q = false) := by
  refine ⟨?_, ?_, ?_⟩
  · intro h
    unfold fwOnEvent
    cases isDir with
    | true => rfl
    | false =>
      simp only [Bool.false_eq_true, if_false]
      by_cases hp : fwIsPhotoFile path <;> simp [hp, h]
  · intro hall e he
    unfold fwOnEvent at he
    cases isDir with
    | true => exact hall e he
    | false =>
      simp only [Bool.false_eq_true, if_false] at he
      by_cases hp : fwIsPhotoFile path
      · simp only [hp, not_true, if_false] at he
        by_cases hh : is_hidden_or_temp path
        · rw [if_pos hh] at he
          exact hall e he
        · rw [if_neg hh] at he
          rcases pendSet_mem pend path now e he with h1 | h1
          · exact hall e h1
          · subst h1
            simpa using hh
      · simp only [hp] at he
        simp at he
        exact hall e he
  · intro hall q hq
    simp only [fwProcessPending] at hq
    rcases List.mem_filter.mp hq with ⟨hq1, _⟩
    rcases List.mem_map.mp hq1 with ⟨e, he, rfl⟩
    exact hall e (List.mem_filter.mp he).1

/-- Witness for C7: a concrete temp file is left unrecorded and a clean
pending map delivers no hidden path. -/
theorem C7_hidden_temp_rejected_witness :
    fwOnEvent [] false "in/photo.jpg.part" 0 = [] :=
  (C7_hidden_temp_rejected [] false "in/photo.jpg.part" 0 0 (fun _ => true)).1
    (by decide)

/-- C7 counterexample: the `watcher.py` handler — the one `FolderWatcher`
and hence the Orchestrator instantiate — records the hidden file
`.hidden.jpg` in its pending map (its only filter is the extension test) and
later delivers it to the callback, although `_is_hidden_or_temp` classifies
the name as hidden. -/
theorem C7_watcher_records_hidden_file :
    is_hidden_or_temp ".hidden.jpg" = true ∧
    watcherOnCreated ["jpg"] [] false ".hidden.jpg" 0 = [(".hidden.jpg", 0)] ∧
    (watcherProcessPending [(".hidden.jpg", 0)] 10 2 (fun _ => true)).2 =
      [".hidden.jpg"] := by
  decide

/-! ## Claim C10 — idle reuse and the error-count reset -/

theorem scanIdle_spec (now : Int) : ∀ (pool : ConnPool) (c : SSHConnection)
    (pool' : ConnPool), scanIdle pool now = some (c, pool') →
    ∃ c₀ ∈ pool, c₀.in_use = false ∧ c₀.alive = true ∧
      c = { c₀ with in_use := true, last_used := now, error_count := 0 } := by
  intro pool
  induction pool with
  | nil => intro c pool' h; cases h
  | cons d rest ih =>
    intro c pool' h
    by_cases hd : ¬ d.in_use ∧ d.alive
    · rw [scanIdle, if_pos hd] at h
      injection h with h1
      have hc : c = { d with in_use := true, last_used := now, error_count := 0 } :=
        (Prod.mk.injEq _ _ _ _ ▸ h1).1.symm
      exact ⟨d, List.mem_cons_self d rest,
        by simpa using hd.1, by simpa using hd.2, hc⟩
    · rw [scanIdle, if_neg hd] at h
      cases hs : scanIdle rest now with
      | none => rw [hs] at h; cases h
      | some r =>
        obtain ⟨rc, rrest⟩ := r
        rw [hs] at h
        injection h with h1
        have hc : rc = c := (Prod.mk.injEq _ _ _ _ ▸ h1).1
        obtain ⟨c₀, hmem, h2, h3, h4⟩ := ih rc rrest hs
        exact ⟨c₀, List.mem_cons_of_mem d hmem, h2, h3, hc ▸ h4⟩

theorem wait_scan_spec (now : Int) : ∀ (pool : ConnPool) (c : SSHConnection)
    (pool' : ConnPool), wait_scan pool now = some (c, pool') →
    ∃ c₀ ∈ pool, c₀.in_use = false ∧
      c = { c₀ with in_use := true, last_used := now } := by
  intro pool
  induction pool with
  | nil => intro c pool' h; cases h
  | cons d rest ih =>
    intro c pool' h
    by_cases hd : ¬ d.in_use
    · rw [wait_scan, if_pos hd] at h
      injection h with h1
      have hc : c = { d with in_use := true, last_used := now } :=
        (Prod.mk.injEq _ _ _ _ ▸ h1).1.symm
      exact ⟨d, List.mem_cons_self d rest, by simpa using hd, hc⟩
    · rw [wait_scan, if_neg hd] at h
      cases hs : wait_scan rest now with
      | none => rw [hs] at h; cases h
      | some r =>
        obtain ⟨rc, rrest⟩ := r
        rw [hs] at h
        injection h with h1
        have hc : rc = c := (Prod.mk.injEq _ _ _ _ ▸ h1).1
        obtain ⟨c₀, hmem, h2, h4⟩ := ih rc rrest hs
        exact ⟨c₀, List.mem_cons_of_mem d hmem, h2, hc ▸ h4⟩

/-- C10 (amended): when `_get_connection` reuses an idle connection through
its liveness-checked scan, the returned connection has its error count reset
to 0, is marked in-use with its last-used time refreshed, and its transport
is active.  The pool-full WAIT path, by contrast, returns the first idle
connection unchanged except for the in-use flag and last-used time — its
error count is NOT reset (and its transport is not checked), so error counts
can persist across checkouts handed out by that path (see the
counterexample). -/
theorem C10_idle_reuse_resets_errors (pool : ConnPool) (now idleTimeout : Int)
    (maxC : Nat) (host : String) (port : Nat) (newCid : Nat) (connectOk : Bool) :
    (∀ c pool',
      get_connection_locked pool now idleTimeout maxC host port newCid connectOk =
          .reused c pool' →
      c.error_count = 0 ∧ c.in_use = true ∧ c.last_used = now ∧ c.alive = true) ∧
    (∀ c pool', wait_scan pool now = some (c, pool') →
      ∃ c₀ ∈ pool, c₀.in_use = false ∧
        c = { c₀ with in_use := true, last_used := now }) := by
  constructor
  · intro c pool' h
    unfold get_connection_locked at h
    cases hs : scanIdle pool now with
    | none =>
      rw [hs] at h
      by_cases h1 : (cleanupConnections pool now idleTimeout).length < maxC <;>
        by_cases h2 : connectOk <;> simp [h1, h2] at h
    | some r =>
      obtain ⟨rc, rrest⟩ := r
      rw [hs] at h
      injection h with h1 h2
      obtain ⟨c₀, _, hidle, halive, hc⟩ := scanIdle_spec now pool rc rrest hs
      subst h1
      rw [hc]
      exact ⟨rfl, rfl, rfl, halive⟩
  · exact fun c pool' h => wait_scan_spec now pool c pool' h

/-- Witness for C10: a one-connection pool with an idle, alive connection
carrying error count 2 is reused with the count reset to 0. -/
theorem C10_idle_reuse_resets_errors_witness :
    (⟨1, "h", 2222, 9, true, 0, true⟩ : SSHConnection).error_count = 0 ∧
      (⟨1, "h", 2222, 9, true, 0, true⟩ : SSHConnection).in_use = true ∧
      (⟨1, "h", 2222, 9, true, 0, true⟩ : SSHConnection).last_used = 9 ∧
      (⟨1, "h", 2222, 9, true, 0, true⟩ : SSHConnection).alive = true :=
  (C10_idle_reuse_resets_errors [⟨1, "h", 2222, 0, false, 2, true⟩] 9 300 5 "h" 2222 7
      true).1
    ⟨1, "h", 2222, 9, true, 0, true⟩
    [⟨1, "h", 2222, 9, true, 0, true⟩]
    (by decide)

/-- C10 counterexample: with `maxConnections = 1` and the only connection
busy, `_get_connection` falls through to the wait loop; after a concurrent
release the wait loop checks out the idle connection — whose transport is
alive — WITHOUT resetting its error count (it stays 2), contradicting the
claim that every reuse of an idle, alive connection resets the count. -/
theorem C10_wait_path_keeps_error_count :
    get_connection_locked [⟨1, "h", 2222, 0, true, 2, true⟩] 5 300 1 "h" 2222 7 true =
        .mustWait [⟨1, "h", 2222, 0, true, 2, true⟩] ∧
      wait_scan [⟨1, "h", 2222, 3, false, 2, true⟩] 6 =
        some (⟨1, "h", 2222, 6, true, 2, true⟩, [⟨1, "h", 2222, 6, true, 2, true⟩]) ∧
      (⟨1, "h", 2222, 6, true, 2, true⟩ : SSHConnection).alive = true ∧
      (⟨1, "h", 2222, 6, true, 2, true⟩ : SSHConnection).error_count ≠ 0 := by
  decide

/-! ## Claim C8 — release of an errored connection -/

/-- C8 (amended): `_release_connection` only marks the connection idle and
refreshes its last-used time — it never closes or removes it, whatever its
error count; after a command that merely returned a non-zero exit code the
(incremented) error count is kept on a connection that stays in the pool,
idle, even once it reaches 3; connections are force-closed and removed from
the pool only in the exception handler of `execute_command`, once the
incremented error count reaches 3. -/
theorem C8_release_semantics (pool : ConnPool) (c : SSHConnection) (now : Int) :
    ((release_connection pool c now).map (fun x => x.cid) =
      pool.map (fun x => x.cid)) ∧
    (∀ x ∈ pool, x.cid = c.cid →
      { x with in_use := false, last_used := now } ∈ release_connection pool c now) ∧
    (∀ conn ec, ec ≠ 0 →
      ((execute_attempt pool conn now (.result ec)).2.map (fun x => x.cid) =
        pool.map (fun x => x.cid)) ∧
      (conn ∈ pool →
        { conn with
            error_count := conn.error_count + 1
            in_use := false
            last_used := now } ∈ (execute_attempt pool conn now (.result ec)).2)) ∧
    (∀ conn, 2 ≤ conn.error_count →
      ∀ x ∈ (execute_attempt pool conn now .exc).2, x.cid ≠ conn.cid) := by
  refine ⟨?_, ?_, ?_, ?_⟩
  · rw [release_connection, List.map_map]
    apply List.map_congr_left
    intro a _
    by_cases h : a.cid = c.cid <;> simp [h]
  · intro x hx hcid
    have h0 := List.mem_map_of_mem
      (fun y => if y.cid = c.cid then { y with in_use := false, last_used := now } else y) hx
    dsimp only at h0
    rw [if_pos hcid] at h0
    exact h0
  · intro conn ec hec
    have hne : ¬ (ec = 0) := hec
    constructor
    · simp only [execute_attempt, hne, if_neg hne]
      rw [release_connection, updateConn, List.map_map, List.map_map]
      apply List.map_congr_left
      intro a _
      by_cases h : a.cid = conn.cid <;> simp [h]
    · intro hmem
      simp only [execute_attempt, if_neg hne]
      have h1 := List.mem_map_of_mem
        (fun x => if x.cid = conn.cid then
          { conn with error_count := conn.error_count + 1 } else x) hmem
      dsimp only at h1
      rw [if_pos rfl] at h1
      have h2 := List.mem_map_of_mem
        (fun x => if x.cid = ({ conn with error_count := conn.error_count + 1 }
            : SSHConnection).cid then
          { x with in_use := false, last_used := now } else x) h1
      dsimp only at h2
      rw [if_pos rfl] at h2
      exact h2
  · intro conn hcnt x hx
    have h3 : ({ conn with error_count := conn.error_count + 1 }
        : SSHConnection).error_count ≥ 3 := by
      simp
      omega
    simp only [execute_attempt, if_pos h3] at hx
    rw [release_connection] at hx
    rcases List.mem_map.mp hx with ⟨y, hy, rfl⟩
    rcases List.mem_filter.mp hy with ⟨_, hyc⟩
    have hyne : y.cid ≠ conn.cid := by simpa using hyc
    by_cases h : y.cid = conn.cid
    · exact absurd h hyne
    · simp only [if_neg h]
      exact hyne

/-- Witness for C8: a connection that just reached error count 3 through a
non-zero exit is still in the pool, idle. -/
theorem C8_release_semantics_witness :
    (⟨1, "h", 2222, 4, false, 3, true⟩ : SSHConnection) ∈
      (execute_attempt [⟨1, "h", 2222, 0, true, 2, true⟩]
        ⟨1, "h", 2222, 0, true, 2, true⟩ 4 (.result 1)).2 :=
  ((C8_release_semantics [⟨1, "h", 2222, 0, true, 2, true⟩]
      ⟨1, "h", 2222, 0, true, 2, true⟩ 4).2.2.1
    ⟨1, "h", 2222, 0, true, 2, true⟩ 1 (by decide)).2 (by decide)

/-- C8 counterexample: releasing a connection whose error count is 3 leaves
it in the pool, idle, alive and with its error count intact, and the next
idle-reuse scan checks it out again — contradicting the claim that release
force-closes and removes such a connection so that it is never reused. -/
theorem C8_release_keeps_errored_connection :
    release_connection [⟨1, "h", 2222, 0, true, 3, true⟩]
        ⟨1, "h", 2222, 0, true, 3, true⟩ 5 =
      [⟨1, "h", 2222, 5, false, 3, true⟩] ∧
    scanIdle [⟨1, "h", 2222, 5, false, 3, true⟩] 6 =
      some (⟨1, "h", 2222, 6, true, 0, true⟩, [⟨1, "h", 2222, 6, true, 0, true⟩]) := by
  decide

/-! ## Claim C9 — manual enqueue forces Manual priority -/

theorem mem_siftdownGo (s : Nat) (v : SyncItem) : ∀ (fuel : Nat) (l : List SyncItem)
    (pos : Nat), pos < l.length → v ∈ siftdownGo s v fuel l pos := by
  intro fuel
  induction fuel with
  | zero => intro l pos h; exact List.mem_set l pos h v
  | succ fuel ih =>
    intro l pos h
    by_cases hs : s < pos
    · cases hp : l[(pos - 1) / 2]? with
      | none =>
        simp only [siftdownGo, hs, if_true, hp]
        exact List.mem_set l pos h v
      | some parent =>
        by_cases hlt : itemLT v parent
        · simp only [siftdownGo, hs, if_true, hp, hlt]
          apply ih
          rw [List.length_set]
          omega
        · simp only [siftdownGo, hs, if_true, hp, hlt, Bool.false_eq_true, if_false]
          exact List.mem_set l pos h v
    · simp only [siftdownGo, hs, if_false]
      exact List.mem_set l pos h v

theorem mem_of_mem_siftdownGo (s : Nat) (v : SyncItem) : ∀ (fuel : Nat)
    (l : List SyncItem) (pos : Nat) (y : SyncItem),
    y ∈ siftdownGo s v fuel l pos → y ∈ l ∨ y = v := by
  intro fuel
  induction fuel with
  | zero =>
    intro l pos y hy
    exact List.mem_or_eq_of_mem_set hy
  | succ fuel ih =>
    intro l pos y hy
    by_cases hs : s < pos
    · cases hp : l[(pos - 1) / 2]? with
      | none =>
        simp only [siftdownGo, hs, if_true, hp] at hy
        exact List.mem_or_eq_of_mem_set hy
      | some parent =>
        by_cases hlt : itemLT v parent
        · simp only [siftdownGo, hs, if_true, hp, hlt] at hy
          rcases ih (l.set pos parent) ((pos - 1) / 2) y hy with h1 | h1
          · rcases List.mem_or_eq_of_mem_set h1 with h2 | h2
            · exact Or.inl h2
            · exact Or.inl (h2 ▸ List.getElem?_mem hp)
          · exact Or.inr h1
        · simp only [siftdownGo, hs, if_true, hp, hlt, Bool.false_eq_true, if_false] at hy
          exact List.mem_or_eq_of_mem_set hy
    · simp only [siftdownGo, hs, if_false] at hy
      exact List.mem_or_eq_of_mem_set hy

/-- C9: an enqueue with `manual=True` that stores an item stores it with
priority forced to MANUAL (0) — whatever priority argument was supplied —
and with the `manual_trigger` flag set; nothing else is added to the
queue. -/
theorem C9_manual_priority (q q' : SyncQueue) (path label : String)
    (prio : Priority) (now : Nat)
    (h : q.enqueue path label prio true now = (q', true)) :
    (⟨0, path, label, now, true⟩ : SyncItem) ∈ q'.heap ∧
    ∀ x ∈ q'.heap, x ∈ q.heap ∨ x = (⟨0, path, label, now, true⟩ : SyncItem) := by
  unfold SyncQueue.enqueue at h
  by_cases hfull : 0 < q.maxsize ∧ q.maxsize ≤ q.heap.length
  · rw [if_pos hfull] at h
    injection h with _ hb
    cases hb
  · rw [if_neg hfull] at h
    injection h with hq _
    have hheap : q'.heap = heappush q.heap ⟨0, path, label, now, true⟩ := by
      rw [← hq]
      simp [Priority.value]
    constructor
    · rw [hheap]
      unfold heappush
      apply mem_siftdownGo
      rw [List.length_append]
      simp
    · intro x hx
      rw [hheap] at hx
      unfold heappush at hx
      rcases mem_of_mem_siftdownGo 0 _ _ _ _ x hx with h1 | h1
      · rcases List.mem_append.mp h1 with h2 | h2
        · exact Or.inl h2
        · exact Or.inr (by simpa using h2)
      · exact Or.inr h1

/-- Witness for C9: enqueueing manually on a fresh queue with LOW priority
stores the item with priority 0. -/
theorem C9_manual_priority_witness :
    (⟨0, "p", "s", 5, true⟩ : SyncItem) ∈
      ((SyncQueue.empty 10).enqueue "p" "s" Priority.low true 5).1.heap :=
  (C9_manual_priority (SyncQueue.empty 10)
      ((SyncQueue.empty 10).enqueue "p" "s" Priority.low true 5).1
      "p" "s" Priority.low 5 (by decide)).1

/-! ## Claim C2 — rename collision policy -/

theorem fsMem_false_iff (fs : Fs) (p : String) :
    fsMem fs p = false ↔ fsLookup fs p = none := by
  unfold fsMem
  cases fsLookup fs p <;> simp

theorem genUniqueGo_spec (fs : Fs) (p ts : String) : ∀ (fuel n : Nat) (d : String),
    genUniqueGo fs p ts n fuel = some d →
    fsMem fs d = false ∧ ∃ k, n ≤ k ∧ d = uniqueCandidate p ts k ∧
      ∀ m, n ≤ m → m < k → fsMem fs (uniqueCandidate p ts m) = true := by
  intro fuel
  induction fuel with
  | zero => intro n d h; cases h
  | succ fuel ih =>
    intro n d h
    by_cases hc : fsMem fs (uniqueCandidate p ts n) = true
    · simp only [genUniqueGo, hc, if_true] at h
      obtain ⟨h1, k, hk1, hk2, hk3⟩ := ih (n + 1) d h
      refine ⟨h1, k, by omega, hk2, ?_⟩
      intro m hm1 hm2
      by_cases hmn : m = n
      · exact hmn ▸ hc
      · exact hk3 m (by omega) hm2
    · simp only [genUniqueGo, hc, if_false] at h
      injection h with hd
      subst hd
      refine ⟨by simpa using hc, n, le_refl n, rfl, ?_⟩
      intro m hm1 hm2
      omega

theorem moverDest_fresh (cfg : MoverConfig) (fs : Fs) (source ts : String)
    (fuel : Nat) (d : String) (w : Bool)
    (h : moverDest cfg fs source ts fuel = some (d, w)) :
    fsLookup fs d = none := by
  unfold moverDest at h
  by_cases hm : fsMem fs (joinDir cfg.import_path (baseName source)) = true
  · rw [if_pos hm] at h
    cases hg : generate_unique_filename fs (joinDir cfg.import_path (baseName source)) ts fuel with
    | none => rw [hg] at h; cases h
    | some d0 =>
      rw [hg] at h
      injection h with h1
      have hd : d0 = d := (Prod.mk.injEq _ _ _ _ ▸ h1).1
      have := (genUniqueGo_spec fs _ ts fuel 0 d0 hg).1
      rw [← (fsMem_false_iff fs d), ← hd]
      exact this
  · rw [if_neg hm] at h
    injection h with h1
    have hd : joinDir cfg.import_path (baseName source) = d :=
      (Prod.mk.injEq _ _ _ _ ▸ h1).1
    rw [← hd, ← fsMem_false_iff]
    simpa using hm

theorem moverFinish_dp (cfg : MoverConfig) (fs1 : Fs) (source dest : String)
    (wasR : Bool) :
    (moverFinish cfg fs1 source dest wasR).2.destination_path = some dest := rfl

theorem moverFinish_success (cfg : MoverConfig) (fs1 : Fs) (source dest : String)
    (wasR : Bool) :
    (moverFinish cfg fs1 source dest wasR).2.success = true := rfl

theorem moverFinish_fs_arch (cfg : MoverConfig) (fs1 : Fs) (source dest : String)
    (wasR : Bool) (h : cfg.import_mode_copy = true ∧ cfg.archive_mode = true) :
    (moverFinish cfg fs1 source dest wasR).1 = (archive_original cfg fs1 source).1 := by
  simp only [moverFinish, if_pos h]

theorem moverFinish_fs_noarch (cfg : MoverConfig) (fs1 : Fs) (source dest : String)
    (wasR : Bool) (h : ¬ (cfg.import_mode_copy = true ∧ cfg.archive_mode = true)) :
    (moverFinish cfg fs1 source dest wasR).1 = fs1 := by
  simp only [moverFinish, if_neg h]

/-- C2 (amended): `FileMover._generate_unique_filename` tries the
`_<timestamp>` name and then `_<timestamp>_<n>` counter names until it finds
one that does not exist, and `FileMover.move_to_photoprism` consequently
never overwrites an existing destination file: any name it returns is the
first fresh candidate, and any destination the move reports was absent
beforehand.  `safe_move_file`, by contrast, appends the timestamp ONCE
without rechecking, and overwrites when the timestamped name also exists
(see the counterexample). -/
theorem C2_rename_unique :
    (∀ (fs : Fs) (p ts : String) (fuel : Nat) (d : String),
      generate_unique_filename fs p ts fuel = some d →
      fsMem fs d = false ∧ ∃ k, d = uniqueCandidate p ts k ∧
        ∀ m, m < k → fsMem fs (uniqueCandidate p ts m) = true) ∧
    (∀ (hashF : Nat → Nat) (cfg : MoverConfig) (fs : Fs) (source : String)
      (verify : Bool) (ts : String) (fuel : Nat)
      (hasSpace srcHashOk moveOk : Bool) (landed : Option Nat)
      (destHashOk unlinkOk : Bool) (written : Nat) (d : String),
      (move_to_photoprism hashF cfg fs source verify ts fuel hasSpace srcHashOk
          moveOk landed destHashOk unlinkOk written).2.destination_path = some d →
      fsLookup fs d = none) := by
  constructor
  · intro fs p ts fuel d h
    obtain ⟨h1, k, _, hk2, hk3⟩ := genUniqueGo_spec fs p ts fuel 0 d h
    exact ⟨h1, k, hk2, fun m hm => hk3 m (Nat.zero_le m) hm⟩
  · intro hashF cfg fs source verify ts fuel hasSpace srcHashOk moveOk landed
      destHashOk unlinkOk written d h
    unfold move_to_photoprism at h
    cases hsrc : fsLookup fs source with
    | none => rw [hsrc] at h; cases h
    | some sc =>
      rw [hsrc] at h
      cases hmd : moverDest cfg fs source ts fuel with
      | none => rw [hmd] at h; cases h
      | some dw =>
        obtain ⟨dest, wasR⟩ := dw
        rw [hmd] at h
        have hdd : d = dest → fsLookup fs d = none := by
          intro e
          rw [e]
          exact moverDest_fresh cfg fs source ts fuel dest wasR hmd
        by_cases hsp : hasSpace = true
        · simp only [hsp] at h
          by_cases hmv : moveOk = true
          · simp only [hmv] at h
            by_cases hvs : (verify = true) ∧ (srcHashOk = true)
            · rw [if_pos hvs] at h
              by_cases hdh : destHashOk = true
              · rw [if_neg (not_not_intro hdh)] at h
                by_cases hmm : hashF written ≠ hashF sc
                · rw [if_pos hmm] at h
                  cases h
                · rw [if_neg hmm] at h
                  injection h with e
                  exact hdd e.symm
              · rw [if_pos hdh] at h
                cases h
            · rw [if_neg hvs] at h
              injection h with e
              exact hdd e.symm
          · rw [if_pos hmv] at h
            cases h
        · simp only [hsp] at h
          cases h

/-- Witness for C2: with `a_T.jpg` and `a_T_1.jpg` both present, the
generated name is the fresh `a_T_2.jpg`, and a move into a colliding import
directory reports a destination that was absent beforehand. -/
theorem C2_rename_unique_witness :
    fsMem [("imp/a.jpg", 1), ("imp/a_T.jpg", 2), ("imp/a_T_1.jpg", 3)]
        "imp/a_T_2.jpg" = false ∧
    fsLookup [("in/a.jpg", 5), ("imp/a.jpg", 9)] "imp/a_T.jpg" = none :=
  ⟨(C2_rename_unique.1 [("imp/a.jpg", 1), ("imp/a_T.jpg", 2), ("imp/a_T_1.jpg", 3)]
      "imp/a.jpg" "T" 10 "imp/a_T_2.jpg" (by decide)).1,
    C2_rename_unique.2 id ⟨"imp", false, false, "/data", ".archive"⟩
      [("in/a.jpg", 5), ("imp/a.jpg", 9)] "in/a.jpg" true "T" 10 true true true
      none true true 5 "imp/a_T.jpg" (by decide)⟩

/-- C2 counterexample: `safe_move_file` with the Rename policy appends the
timestamp once and does not recheck: with both `imp/a.jpg` and the
timestamped `imp/a_T.jpg` already present, moving `in/a.jpg` (content 30)
OVERWRITES the existing `imp/a_T.jpg` (content 20) and reports success —
contradicting the claim that a `_<n>` counter is appended until the name is
unique and that no existing destination file is ever overwritten. -/
theorem C2_safe_move_rename_overwrites :
    (safe_move_file id [("imp/a.jpg", 10), ("imp/a_T.jpg", 20), ("in/a.jpg", 30)]
        "in/a.jpg" "imp" true "rename" "T" 30).2.success = true ∧
    (safe_move_file id [("imp/a.jpg", 10), ("imp/a_T.jpg", 20), ("in/a.jpg", 30)]
        "in/a.jpg" "imp" true "rename" "T" 30).2.dest = some "imp/a_T.jpg" ∧
    fsLookup [("imp/a.jpg", 10), ("imp/a_T.jpg", 20), ("in/a.jpg", 30)]
        "imp/a_T.jpg" = some 20 ∧
    fsLookup (safe_move_file id [("imp/a.jpg", 10), ("imp/a_T.jpg", 20), ("in/a.jpg", 30)]
        "in/a.jpg" "imp" true "rename" "T" 30).1 "imp/a_T.jpg" = some 30 := by
  decide

/-! ## Claim C1 — move with verification -/

theorem archive_original_lookup (cfg : MoverConfig) (fs : Fs) (source d : String)
    (hne : source ≠ d) :
    fsLookup (archive_original cfg fs source).1 d = fsLookup fs d ∨
      ∃ sc2, fsLookup fs source = some sc2 ∧
        fsLookup (archive_original cfg fs source).1 d = some sc2 := by
  cases hidx : (List.range (pathParts source).length).find?
      (fun i => decide (0 < i ∧
        joinParts (List.take i (pathParts source)) = cfg.nc_data_path.data)) with
  | none =>
    left
    simp only [archive_original, hidx]
  | some i =>
    by_cases hpre : ((archiveUserDir source i ++ "/files/").data.isPrefixOf source.data)
        = true
    · cases hsc : fsLookup fs source with
      | none =>
        left
        simp only [archive_original, hidx, hpre, if_true, hsc]
      | some sc2 =>
        by_cases htd : archiveTarget cfg source i = d
        · right
          refine ⟨sc2, rfl, ?_⟩
          simp only [archive_original, hidx, hpre, if_true, hsc]
          rw [← htd]
          exact fsLookup_write_self _ _ _
        · left
          simp only [archive_original, hidx, hpre, if_true, hsc]
          rw [fsLookup_write_ne _ _ _ _ htd]
          exact fsLookup_erase_ne fs source d hne
    · left
      simp only [archive_original, hidx, hpre, Bool.false_eq_true, if_false]

theorem move_nospace_eq (hashF : Nat → Nat) (cfg : MoverConfig) (fs : Fs)
    (source ts : String) (fuel : Nat) (written sc : Nat) (dest : String) (wasR : Bool)
    (hsrc : fsLookup fs source = some sc)
    (hmd : moverDest cfg fs source ts fuel = some (dest, wasR)) :
    move_to_photoprism hashF cfg fs source true ts fuel false true true none
        true true written =
      (fs, ⟨false, source, none, none,
        some "Insufficient disk space at destination", false, false⟩) := by
  simp only [move_to_photoprism, hsrc, hmd]
  rw [if_pos (by simp)]

theorem move_raise_eq (hashF : Nat → Nat) (cfg : MoverConfig) (fs : Fs)
    (source ts : String) (fuel : Nat) (written sc : Nat) (dest : String) (wasR : Bool)
    (landed : Option Nat)
    (hsrc : fsLookup fs source = some sc)
    (hmd : moverDest cfg fs source ts fuel = some (dest, wasR)) :
    move_to_photoprism hashF cfg fs source true ts fuel true true false landed
        true true written =
      ((match landed with
        | none => fs
        | some b => fsWrite fs dest b),
       ⟨false, source, none, none, some "Error moving file", false, false⟩) := by
  simp only [move_to_photoprism, hsrc, hmd]
  rw [if_neg (by simp), if_pos (by simp)]

theorem move_unverified_eq (hashF : Nat → Nat) (cfg : MoverConfig) (fs : Fs)
    (source ts : String) (fuel : Nat) (written sc : Nat) (dest : String) (wasR : Bool)
    (hsrc : fsLookup fs source = some sc)
    (hmd : moverDest cfg fs source ts fuel = some (dest, wasR)) :
    move_to_photoprism hashF cfg fs source true ts fuel true false true none
        true true written =
      moverFinish cfg (if cfg.import_mode_copy then fsWrite fs dest written
        else fsWrite (fsErase fs source) dest written) source dest wasR := by
  simp only [move_to_photoprism, hsrc, hmd]
  rw [if_neg (by simp), if_neg (by simp), if_neg (by simp)]

theorem move_desthash_eq (hashF : Nat → Nat) (cfg : MoverConfig) (fs : Fs)
    (source ts : String) (fuel : Nat) (written sc : Nat) (dest : String) (wasR : Bool)
    (hsrc : fsLookup fs source = some sc)
    (hmd : moverDest cfg fs source ts fuel = some (dest, wasR)) :
    move_to_photoprism hashF cfg fs source true ts fuel true true true none
        false true written =
      ((if cfg.import_mode_copy then fsWrite fs dest written
        else fsWrite (fsErase fs source) dest written),
       ⟨false, source, none, none, some "Error moving file", false, false⟩) := by
  simp only [move_to_photoprism, hsrc, hmd]
  rw [if_neg (by simp), if_neg (by simp), if_pos (by exact ⟨trivial, trivial⟩),
    if_pos (by simp)]

theorem move_mismatch_eq (hashF : Nat → Nat) (cfg : MoverConfig) (fs : Fs)
    (source ts : String) (fuel : Nat) (written sc : Nat) (dest : String) (wasR : Bool)
    (hsrc : fsLookup fs source = some sc)
    (hmd : moverDest cfg fs source ts fuel = some (dest, wasR))
    (hv : ¬ hashF written = hashF sc) :
    move_to_photoprism hashF cfg fs source true ts fuel true true true none
        true true written =
      (fsErase (if cfg.import_mode_copy then fsWrite fs dest written
          else fsWrite (fsErase fs source) dest written) dest,
        ⟨false, source, none, none,
          some "Hash verification failed after move", false, false⟩) := by
  simp only [move_to_photoprism, hsrc, hmd]
  rw [if_neg (by simp), if_neg (by simp), if_pos (by exact ⟨trivial, trivial⟩),
    if_neg (by simp), if_pos hv, if_pos trivial]

theorem move_mismatch_noclean_eq (hashF : Nat → Nat) (cfg : MoverConfig) (fs : Fs)
    (source ts : String) (fuel : Nat) (written sc : Nat) (dest : String) (wasR : Bool)
    (hsrc : fsLookup fs source = some sc)
    (hmd : moverDest cfg fs source ts fuel = some (dest, wasR))
    (hv : ¬ hashF written = hashF sc) :
    move_to_photoprism hashF cfg fs source true ts fuel true true true none
        true false written =
      ((if cfg.import_mode_copy then fsWrite fs dest written
        else fsWrite (fsErase fs source) dest written),
       ⟨false, source, none, none,
         some "Hash verification failed after move", false, false⟩) := by
  simp only [move_to_photoprism, hsrc, hmd]
  rw [if_neg (by simp), if_neg (by simp), if_pos (by exact ⟨trivial, trivial⟩),
    if_neg (by simp), if_pos hv, if_neg (by simp)]

theorem move_success_eq (hashF : Nat → Nat) (cfg : MoverConfig) (fs : Fs)
    (source ts : String) (fuel : Nat) (written sc : Nat) (dest : String) (wasR : Bool)
    (hsrc : fsLookup fs source = some sc)
    (hmd : moverDest cfg fs source ts fuel = some (dest, wasR))
    (hv : hashF written = hashF sc) :
    move_to_photoprism hashF cfg fs source true ts fuel true true true none
        true true written =
      moverFinish cfg (if cfg.import_mode_copy then fsWrite fs dest written
        else fsWrite (fsErase fs source) dest written) source dest wasR := by
  simp only [move_to_photoprism, hsrc, hmd]
  rw [if_neg (by simp), if_neg (by simp), if_pos (by exact ⟨trivial, trivial⟩),
    if_neg (by simp), if_neg (not_not_intro hv)]

/-- C1 (amended): with verification enabled and every fallible step behaving
— the source hash computed, the `mkdir`/`shutil` move completed, the
destination hash computed and the rollback unlink effective —
`FileMover.move_to_photoprism` either returns success with a destination
whose content hashes to the source's pre-move digest, or returns a failure
with no file at the chosen destination path (first conjunct).  Each proviso
is load-bearing in the source: a failed source-hash computation makes the
move return SUCCESS unverified, with bytes at the destination that hash
differently from the source (second conjunct); an aborted `mkdir`/copy/move
returns failure with whatever bytes landed still at the destination, no
rollback running (third conjunct); a failed destination-hash computation
returns failure leaving the moved file in place (fourth conjunct); and a
failed rollback unlink leaves the hash-mismatched file at the destination
(fifth conjunct).  `safe_move_file`, by contrast, has no rollback code at
all and leaves the mismatched destination in place even with every step
behaving (see the counterexample). -/
theorem C1_move_verify_rollback (hashF : Nat → Nat) (cfg : MoverConfig) (fs : Fs)
    (source ts : String) (fuel : Nat) (sc : Nat)
    (hsrc : fsLookup fs source = some sc) :
    (∀ (hasSpace : Bool) (written : Nat),
      ((move_to_photoprism hashF cfg fs source true ts fuel hasSpace true true
          none true true written).2.success = true →
        ∃ d c,
          (move_to_photoprism hashF cfg fs source true ts fuel hasSpace true true
            none true true written).2.destination_path = some d ∧
          fsLookup (move_to_photoprism hashF cfg fs source true ts fuel hasSpace
            true true none true true written).1 d = some c ∧
          hashF c = hashF sc) ∧
      ((move_to_photoprism hashF cfg fs source true ts fuel hasSpace true true
          none true true written).2.success = false →
        ∀ d w, moverDest cfg fs source ts fuel = some (d, w) →
          fsLookup (move_to_photoprism hashF cfg fs source true ts fuel hasSpace
            true true none true true written).1 d = none)) ∧
    (∀ (written : Nat), cfg.import_mode_copy = false → hashF written ≠ hashF sc →
      ∀ d w, moverDest cfg fs source ts fuel = some (d, w) →
        (move_to_photoprism hashF cfg fs source true ts fuel true false true
          none true true written).2.success = true ∧
        fsLookup (move_to_photoprism hashF cfg fs source true ts fuel true false
          true none true true written).1 d = some written) ∧
    (∀ (b : Nat), ∀ d w, moverDest cfg fs source ts fuel = some (d, w) →
      (move_to_photoprism hashF cfg fs source true ts fuel true true false
        (some b) true true 0).2.success = false ∧
      fsLookup (move_to_photoprism hashF cfg fs source true ts fuel true true
        false (some b) true true 0).1 d = some b) ∧
    (∀ (written : Nat), ∀ d w, moverDest cfg fs source ts fuel = some (d, w) →
      (move_to_photoprism hashF cfg fs source true ts fuel true true true none
        false true written).2.success = false ∧
      fsLookup (move_to_photoprism hashF cfg fs source true ts fuel true true
        true none false true written).1 d = some written) ∧
    (∀ (written : Nat), hashF written ≠ hashF sc →
      ∀ d w, moverDest cfg fs source ts fuel = some (d, w) →
        (move_to_photoprism hashF cfg fs source true ts fuel true true true none
          true false written).2.success = false ∧
        fsLookup (move_to_photoprism hashF cfg fs source true ts fuel true true
          true none true false written).1 d = some written) := by
  refine ⟨?_, ?_, ?_, ?_, ?_⟩
  · intro hasSpace written
    cases hmd : moverDest cfg fs source ts fuel with
    | none =>
      have heq : move_to_photoprism hashF cfg fs source true ts fuel hasSpace true
          true none true true written =
          (fs, ⟨false, source, none, none, some "collision loop divergence",
            false, false⟩) := by
        simp only [move_to_photoprism, hsrc, hmd]
      rw [heq]
      constructor
      · intro hsucc; cases hsucc
      · intro _ d w hdw
        cases hdw
    | some dw =>
      obtain ⟨dest, wasR⟩ := dw
      have hfresh : fsLookup fs dest = none :=
        moverDest_fresh cfg fs source ts fuel dest wasR hmd
      have hsd : source ≠ dest := by
        intro e; rw [e, hfresh] at hsrc; cases hsrc
      cases hasSpace with
      | false =>
        rw [move_nospace_eq hashF cfg fs source ts fuel written sc dest wasR hsrc hmd]
        constructor
        · intro hsucc; cases hsucc
        · intro _ d w hdw
          injection hdw with h1
          have hd : dest = d := (Prod.mk.injEq _ _ _ _ ▸ h1).1
          exact hd ▸ hfresh
      | true =>
        by_cases hv : hashF written = hashF sc
        · have heq := move_success_eq hashF cfg fs source ts fuel written sc dest wasR
            hsrc hmd hv
          rw [heq]
          constructor
          · intro _
            by_cases hca : (cfg.import_mode_copy = true) ∧ (cfg.archive_mode = true)
            · rw [if_pos hca.1]
              rw [moverFinish_fs_arch cfg (fsWrite fs dest written) source dest wasR hca]
              rcases archive_original_lookup cfg (fsWrite fs dest written) source dest hsd
                with harch | ⟨sc2, hsc2, harch⟩
              · refine ⟨dest, written, moverFinish_dp cfg _ source dest wasR, ?_, hv⟩
                rw [harch]
                exact fsLookup_write_self fs dest written
              · have hlk : fsLookup (fsWrite fs dest written) source = some sc := by
                  rw [fsLookup_write_ne fs dest written source (fun e => hsd e.symm)]
                  exact hsrc
                have he : sc2 = sc := by
                  have h2 := hlk.symm.trans hsc2
                  injection h2 with e
                  exact e.symm
                exact ⟨dest, sc2, moverFinish_dp cfg _ source dest wasR, harch, by rw [he]⟩
            · rw [moverFinish_fs_noarch cfg _ source dest wasR hca]
              refine ⟨dest, written, moverFinish_dp cfg _ source dest wasR, ?_, hv⟩
              cases hcm : cfg.import_mode_copy with
              | true =>
                rw [if_pos rfl]
                exact fsLookup_write_self fs dest written
              | false =>
                rw [if_neg (by simp)]
                exact fsLookup_write_self (fsErase fs source) dest written
          · intro hfail
            rw [moverFinish_success] at hfail
            cases hfail
        · rw [move_mismatch_eq hashF cfg fs source ts fuel written sc dest wasR hsrc hmd hv]
          constructor
          · intro hsucc; cases hsucc
          · intro _ d w hdw
            injection hdw with h1
            have hd : dest = d := (Prod.mk.injEq _ _ _ _ ▸ h1).1
            rw [← hd]
            exact fsLookup_erase_self _ dest
  · intro written hcm hne d w hdw
    rw [move_unverified_eq hashF cfg fs source ts fuel written sc d w hsrc hdw]
    have hna : ¬ (cfg.import_mode_copy = true ∧ cfg.archive_mode = true) := by
      intro hc
      have h1 := hc.1
      rw [hcm] at h1
      cases h1
    refine ⟨moverFinish_success cfg _ source d w, ?_⟩
    rw [moverFinish_fs_noarch cfg _ source d w hna]
    rw [if_neg (by simp [hcm])]
    exact fsLookup_write_self (fsErase fs source) d written
  · intro b d w hdw
    rw [move_raise_eq hashF cfg fs source ts fuel 0 sc d w (some b) hsrc hdw]
    exact ⟨rfl, fsLookup_write_self fs d b⟩
  · intro written d w hdw
    rw [move_desthash_eq hashF cfg fs source ts fuel written sc d w hsrc hdw]
    refine ⟨rfl, ?_⟩
    cases hcm : cfg.import_mode_copy with
    | true =>
      rw [if_pos rfl]
      exact fsLookup_write_self fs d written
    | false =>
      rw [if_neg (by simp)]
      exact fsLookup_write_self (fsErase fs source) d written
  · intro written hne d w hdw
    rw [move_mismatch_noclean_eq hashF cfg fs source ts fuel written sc d w hsrc hdw hne]
    refine ⟨rfl, ?_⟩
    cases hcm : cfg.import_mode_copy with
    | true =>
      rw [if_pos rfl]
      exact fsLookup_write_self fs d written
    | false =>
      rw [if_neg (by simp)]
      exact fsLookup_write_self (fsErase fs source) d written

/-- Witness for C1, all five conjuncts at one configuration (move mode, no
archive, source `in/a.jpg` of content 5, import directory `imp`): a
faultless verified move succeeds with hash-equal content at the
destination; with the source hash failing, the move of mismatching bytes 7
still returns success and leaves 7 at the destination; an aborted move that
landed bytes 3 leaves them there; a failed destination hash leaves the
moved bytes 9 in place; and a mismatching move (9 against 5) whose rollback
unlink fails leaves 9 at the destination. -/
theorem C1_move_verify_rollback_witness :
    (∃ d c,
      (move_to_photoprism id ⟨"imp", false, false, "/data", ".archive"⟩
        [("in/a.jpg", 5)] "in/a.jpg" true "T" 10 true true true none true true
        5).2.destination_path = some d ∧
      fsLookup (move_to_photoprism id ⟨"imp", false, false, "/data", ".archive"⟩
        [("in/a.jpg", 5)] "in/a.jpg" true "T" 10 true true true none true true
        5).1 d = some c ∧
      id c = id 5) ∧
    ((move_to_photoprism id ⟨"imp", false, false, "/data", ".archive"⟩
        [("in/a.jpg", 5)] "in/a.jpg" true "T" 10 true false true none true true
        7).2.success = true ∧
      fsLookup (move_to_photoprism id ⟨"imp", false, false, "/data", ".archive"⟩
        [("in/a.jpg", 5)] "in/a.jpg" true "T" 10 true false true none true true
        7).1 "imp/a.jpg" = some 7) ∧
    ((move_to_photoprism id ⟨"imp", false, false, "/data", ".archive"⟩
        [("in/a.jpg", 5)] "in/a.jpg" true "T" 10 true true false (some 3) true true
        0).2.success = false ∧
      fsLookup (move_to_photoprism id ⟨"imp", false, false, "/data", ".archive"⟩
        [("in/a.jpg", 5)] "in/a.jpg" true "T" 10 true true false (some 3) true true
        0).1 "imp/a.jpg" = some 3) ∧
    ((move_to_photoprism id ⟨"imp", false, false, "/data", ".archive"⟩
        [("in/a.jpg", 5)] "in/a.jpg" true "T" 10 true true true none false true
        9).2.success = false ∧
      fsLookup (move_to_photoprism id ⟨"imp", false, false, "/data", ".archive"⟩
        [("in/a.jpg", 5)] "in/a.jpg" true "T" 10 true true true none false true
        9).1 "imp/a.jpg" = some 9) ∧
    ((move_to_photoprism id ⟨"imp", false, false, "/data", ".archive"⟩
        [("in/a.jpg", 5)] "in/a.jpg" true "T" 10 true true true none true false
        9).2.success = false ∧
      fsLookup (move_to_photoprism id ⟨"imp", false, false, "/data", ".archive"⟩
        [("in/a.jpg", 5)] "in/a.jpg" true "T" 10 true true true none true false
        9).1 "imp/a.jpg" = some 9) := by
  have h := C1_move_verify_rollback id ⟨"imp", false, false, "/data", ".archive"⟩
      [("in/a.jpg", 5)] "in/a.jpg" "T" 10 5 (by decide)
  exact ⟨(h.1 true 5).1 (by decide),
    h.2.1 7 (by decide) (by decide) "imp/a.jpg" false (by decide),
    h.2.2.1 3 "imp/a.jpg" false (by decide),
    h.2.2.2.1 9 "imp/a.jpg" false (by decide),
    h.2.2.2.2 9 (by decide) "imp/a.jpg" false (by decide)⟩

/-- C1 counterexample: `safe_move_file` with verification enabled, on a move
whose destination bytes (2) differ from the source content (1), returns the
hard failure but leaves the corrupted file at the destination path
`imp/a.jpg` — contradicting the claim that every verified move failure
leaves no file at the destination. -/
theorem C1_safe_move_mismatch_leaves_dest :
    (safe_move_file id [("in/a.jpg", 1)] "in/a.jpg" "imp" true "rename" "T" 2).2.success
        = false ∧
    (safe_move_file id [("in/a.jpg", 1)] "in/a.jpg" "imp" true "rename" "T" 2).2.err
        = some "File integrity check failed after move" ∧
    fsLookup (safe_move_file id [("in/a.jpg", 1)] "in/a.jpg" "imp" true "rename" "T" 2).1
        "imp/a.jpg" = some 2 := by
  decide

/-! ## Claim C3 — SkippedDuplicate and the source file -/

/-- C3 (amended): on a duplicate hit, `sync_file` returns SkippedDuplicate
REGARDLESS of whether archiving or deleting the source succeeded, and the
source is gone after the call PROVIDED the archive copy and the deletions
succeeded; when they fail (see the counterexample) the source remains on
disk even though the result is still SkippedDuplicate. -/
theorem C3_skipped_duplicate_source_removed (hashF : Nat → Nat) (fs : Fs)
    (cache : DedupCache) (stats : SyncStats) (file_path : String) (cfg : FolderCfg)
    (import_path ts : String) (written c : Nat)
    (hsrc : fsLookup fs file_path = some c)
    (hdup : (cache_is_duplicate cache (hashF c)).1 = true) :
    (∀ aOk rOk : Bool,
      (sync_file hashF fs cache stats file_path cfg import_path false ts aOk rOk
        written).2.2.2.status = .skipped_duplicate) ∧
    fsLookup (sync_file hashF fs cache stats file_path cfg import_path false ts true true
        written).1 file_path = none := by
  constructor
  · intro aOk rOk
    simp only [sync_file, hsrc, hdup, if_true, Bool.false_eq_true, if_false]
  · simp only [sync_file, hsrc, hdup, if_true, Bool.false_eq_true, if_false]
    by_cases ham : cfg.archive_moved = true
    · rw [if_pos ham]
      simp only [archive_source_file, archive_file, hsrc, if_true]
      exact fsLookup_erase_self _ file_path
    · rw [if_neg ham]
      exact fsLookup_erase_self fs file_path

/-- Witness for C3: duplicate of `in/a.jpg` (content 7, hash cached) with
archive-on-move, all filesystem operations succeeding: result is
SkippedDuplicate and the source is gone. -/
theorem C3_skipped_duplicate_source_removed_witness :
    (sync_file id [("in/a.jpg", 7)] [(7, ["imp/x.jpg"])] ⟨0, 0, 0, 0⟩ "in/a.jpg"
        ⟨"in", true, none⟩ "imp" false "T" true true 7).2.2.2.status =
      SyncStatus.skipped_duplicate ∧
    fsLookup (sync_file id [("in/a.jpg", 7)] [(7, ["imp/x.jpg"])] ⟨0, 0, 0, 0⟩ "in/a.jpg"
        ⟨"in", true, none⟩ "imp" false "T" true true 7).1 "in/a.jpg" = none :=
  ⟨(C3_skipped_duplicate_source_removed id [("in/a.jpg", 7)] [(7, ["imp/x.jpg"])]
      ⟨0, 0, 0, 0⟩ "in/a.jpg" ⟨"in", true, none⟩ "imp" "T" 7 7
      (by decide) (by decide)).1 true true,
    (C3_skipped_duplicate_source_removed id [("in/a.jpg", 7)] [(7, ["imp/x.jpg"])]
      ⟨0, 0, 0, 0⟩ "in/a.jpg" ⟨"in", true, none⟩ "imp" "T" 7 7
      (by decide) (by decide)).2⟩

/-- C3 counterexample: a duplicate hit with archive-on-move whose archive
copy FAILS (oracle false) still returns SkippedDuplicate, but the source
file `in/a.jpg` is still on disk after the call — contradicting the claim
that after every SkippedDuplicate the source no longer exists. -/
theorem C3_archive_failure_source_remains :
    (sync_file id [("in/a.jpg", 7)] [(7, ["imp/x.jpg"])] ⟨0, 0, 0, 0⟩ "in/a.jpg"
        ⟨"in", true, none⟩ "imp" false "T" false true 7).2.2.2.status =
      SyncStatus.skipped_duplicate ∧
    fsLookup (sync_file id [("in/a.jpg", 7)] [(7, ["imp/x.jpg"])] ⟨0, 0, 0, 0⟩ "in/a.jpg"
        ⟨"in", true, none⟩ "imp" false "T" false true 7).1 "in/a.jpg" = some 7 := by
  decide

/-! ## Claim C4 — heapq ordering.  Length and membership bookkeeping. -/

theorem childOfParent (i j : Nat) (h : 0 < i) :
    (i - 1) / 2 = j ↔ i = 2 * j + 1 ∨ i = 2 * j + 2 := by omega

theorem siftdownGo_length (s : Nat) (v : SyncItem) : ∀ (fuel : Nat) (l : List SyncItem)
    (pos : Nat), (siftdownGo s v fuel l pos).length = l.length := by
  intro fuel
  induction fuel with
  | zero => intro l pos; simp [siftdownGo]
  | succ fuel ih =>
    intro l pos
    by_cases hs : s < pos
    · cases hp : l[(pos - 1) / 2]? with
      | none => simp [siftdownGo, hs, hp]
      | some parent =>
        by_cases hlt : itemLT v parent
        · simp only [siftdownGo, hs, if_true, hp, hlt]
          rw [ih]
          exact List.length_set l pos parent
        · simp [siftdownGo, hs, hp, hlt]
    · simp [siftdownGo, hs]

theorem siftupGo_length : ∀ (fuel : Nat) (l : List SyncItem) (pos : Nat),
    (siftupGo fuel l pos).1.length = l.length := by
  intro fuel
  induction fuel with
  | zero => intro l pos; simp [siftupGo]
  | succ fuel ih =>
    intro l pos
    by_cases hloop : 2 * pos + 1 < l.length
    · cases hc : l[pickChild l (2 * pos + 1)]? with
      | none => simp [siftupGo, hloop, hc]
      | some cv =>
        simp only [siftupGo, hloop, if_true, hc]
        rw [ih]
        exact List.length_set l pos cv
    · simp [siftupGo, hloop]

theorem mem_of_mem_siftupGo : ∀ (fuel : Nat) (l : List SyncItem) (pos : Nat)
    (y : SyncItem), y ∈ (siftupGo fuel l pos).1 → y ∈ l := by
  intro fuel
  induction fuel with
  | zero => intro l pos y hy; simpa [siftupGo] using hy
  | succ fuel ih =>
    intro l pos y hy
    by_cases hloop : 2 * pos + 1 < l.length
    · cases hc : l[pickChild l (2 * pos + 1)]? with
      | none => simpa [siftupGo, hloop, hc] using hy
      | some cv =>
        simp only [siftupGo, hloop, if_true, hc] at hy
        rcases List.mem_or_eq_of_mem_set (ih _ _ y hy) with h1 | h1
        · exact h1
        · exact h1 ▸ List.getElem?_mem hc
    · simpa [siftupGo, hloop] using hy

theorem siftup_length (l : List SyncItem) (pos : Nat) :
    (siftup l pos).length = l.length := by
  unfold siftup
  cases hp : l[pos]? with
  | none => rfl
  | some newitem =>
    rw [siftdownGo_length]
    rw [List.length_set, siftupGo_length]

theorem heappop_length (l : List SyncItem) (x : SyncItem) (r : List SyncItem)
    (h : heappop l = some (x, r)) : r.length + 1 = l.length := by
  unfold heappop at h
  cases hl : l.getLast? with
  | none => rw [hl] at h; cases h
  | some lastelt =>
    rw [hl] at h
    dsimp only at h
    have hlen : 0 < l.length := by
      rcases List.getLast?_eq_getElem? l ▸ hl with h2
      have := (List.getElem?_eq_some.mp h2).1
      omega
    cases h0 : l.dropLast[0]? with
    | none =>
      rw [h0] at h
      injection h with h1
      have hr : r = [] := (Prod.mk.injEq _ _ _ _ ▸ h1).2.symm
      have hrest : l.dropLast.length ≤ 0 := by
        by_contra hc
        have h2 : (0 : Nat) < l.dropLast.length := by omega
        rcases List.getElem?_eq_some.mpr ⟨h2, rfl⟩ with h3
        rw [h0] at h3
        cases h3
      rw [hr, List.length_dropLast] at *
      simp only [List.length_nil]
      omega
    | some returnitem =>
      rw [h0] at h
      injection h with h1
      have hr : r = siftup (l.dropLast.set 0 lastelt) 0 :=
        (Prod.mk.injEq _ _ _ _ ▸ h1).2.symm
      rw [hr, siftup_length, List.length_set, List.length_dropLast]
      omega

theorem heappop_length_spec (l : List SyncItem) (x : SyncItem) (r : List SyncItem)
    (h : heappop l = some (x, r)) : l.length = r.length + 1 :=
  (heappop_length l x r h).symm

/-! ## Claim C4 — heap-property preservation of the sift operations -/

theorem itemLT_iff (a b : SyncItem) : itemLT a b = true ↔ a.priority < b.priority := by
  simp [itemLT]

theorem setRoot_heapInv (l : List SyncItem) (v : SyncItem) (h : UpInv l 0 v) :
    HeapInv (l.set 0 v) := by
  obtain ⟨hA, hB, _⟩ := h
  intro i x p hi hx hp
  rw [List.getElem?_set_ne (by omega : (0 : Nat) ≠ i)] at hx
  have hlen : i < l.length := (List.getElem?_eq_some.mp hx).1
  by_cases hpi : (i - 1) / 2 = 0
  · rw [hpi, List.getElem?_set_self (by omega)] at hp
    have ev : v = p := by injection hp
    subst ev
    exact hB i x (by omega) hx
  · rw [List.getElem?_set_ne (by omega : (0 : Nat) ≠ (i - 1) / 2)] at hp
    exact hA i x p hi (by omega) hx hp

theorem siftdownGo_heapInv : ∀ (fuel : Nat) (l : List SyncItem) (pos : Nat)
    (v : SyncItem), pos ≤ fuel → pos < l.length → UpInv l pos v →
    HeapInv (siftdownGo 0 v fuel l pos) := by
  intro fuel
  induction fuel with
  | zero =>
    intro l pos v hf hl hUp
    have hp0 : pos = 0 := by omega
    subst hp0
    exact setRoot_heapInv l v hUp
  | succ fuel ih =>
    intro l pos v hf hl hUp
    by_cases hs : 0 < pos
    · cases hp : l[(pos - 1) / 2]? with
      | none =>
        exfalso
        have h2 := List.getElem?_eq_some.mpr ⟨(by omega : (pos - 1) / 2 < l.length), rfl⟩
        rw [hp] at h2
        cases h2
      | some parent =>
        by_cases hlt : itemLT v parent = true
        · simp only [siftdownGo, hs, if_true, hp, hlt]
          have hvlt : v.priority < parent.priority := (itemLT_iff v parent).mp hlt
          obtain ⟨hA, hB, hC⟩ := hUp
          have hposch : pos = 2 * ((pos - 1) / 2) + 1 ∨ pos = 2 * ((pos - 1) / 2) + 2 :=
            (childOfParent pos ((pos - 1) / 2) hs).mp rfl
          apply ih (l.set pos parent) ((pos - 1) / 2) v (by omega)
            (by rw [List.length_set]; omega)
          refine ⟨?_, ?_, ?_⟩
          · -- heap property away from the new hole
            intro i x p hi hip hx hpEq
            by_cases hipos : i = pos
            · subst hipos
              rw [List.getElem?_set_self hl] at hx
              have ex : parent = x := by injection hx
              subst ex
              rw [List.getElem?_set_ne (by omega : i ≠ (i - 1) / 2)] at hpEq
              have ep : parent = p := by
                have := hp.symm.trans hpEq
                injection this
              subst ep
              omega
            · rw [List.getElem?_set_ne (by omega : pos ≠ i)] at hx
              by_cases hpar : (i - 1) / 2 = pos
              · rw [hpar, List.getElem?_set_self hl] at hpEq
                have ep : parent = p := by injection hpEq
                subst ep
                have hch : i = 2 * pos + 1 ∨ i = 2 * pos + 2 :=
                  (childOfParent i pos hi).mp hpar
                exact hC hs i x parent hch hx hp
              · rw [List.getElem?_set_ne (by omega : pos ≠ (i - 1) / 2)] at hpEq
                exact hA i x p hi hipos hx hpEq
          · -- pending item below the children of the new hole
            intro c x hc hx
            by_cases hcpos : c = pos
            · subst hcpos
              rw [List.getElem?_set_self hl] at hx
              have ex : parent = x := by injection hx
              subst ex
              omega
            · rw [List.getElem?_set_ne (by omega : pos ≠ c)] at hx
              have hc0 : 0 < c := by omega
              have hcp : (c - 1) / 2 = (pos - 1) / 2 :=
                (childOfParent c ((pos - 1) / 2) hc0).mpr hc
              have h2 := hA c x parent hc0 hcpos hx (by rw [hcp]; exact hp)
              omega
          · -- grandparent of the new hole below its children
            intro hpp0 c x p hc hx hpEq
            rw [List.getElem?_set_ne
              (by omega : pos ≠ ((pos - 1) / 2 - 1) / 2)] at hpEq
            have h1 := hA ((pos - 1) / 2) parent p hpp0 (by omega) hp hpEq
            by_cases hcpos : c = pos
            · subst hcpos
              rw [List.getElem?_set_self hl] at hx
              have ex : parent = x := by injection hx
              subst ex
              omega
            · rw [List.getElem?_set_ne (by omega : pos ≠ c)] at hx
              have hc0 : 0 < c := by omega
              have hcp : (c - 1) / 2 = (pos - 1) / 2 :=
                (childOfParent c ((pos - 1) / 2) hc0).mpr hc
              have h2 := hA c x parent hc0 hcpos hx (by rw [hcp]; exact hp)
              omega
        · simp only [siftdownGo, hs, if_true, hp, hlt, Bool.false_eq_true, if_false]
          obtain ⟨hA, hB, hC⟩ := hUp
          have hge : parent.priority ≤ v.priority := by
            have hnv : ¬ v.priority < parent.priority :=
              fun hh => hlt ((itemLT_iff v parent).mpr hh)
            omega
          intro i x p hi hx hpEq
          by_cases hipos : i = pos
          · subst hipos
            rw [List.getElem?_set_self hl] at hx
            have ex : v = x := by injection hx
            subst ex
            rw [List.getElem?_set_ne (by omega : i ≠ (i - 1) / 2)] at hpEq
            have ep : parent = p := by
              have := hp.symm.trans hpEq
              injection this
            subst ep
            omega
          · rw [List.getElem?_set_ne (by omega : pos ≠ i)] at hx
            by_cases hpar : (i - 1) / 2 = pos
            · rw [hpar, List.getElem?_set_self hl] at hpEq
              have ep : v = p := by injection hpEq
              subst ep
              have hch : i = 2 * pos + 1 ∨ i = 2 * pos + 2 :=
                (childOfParent i pos hi).mp hpar
              exact hB i x hch hx
            · rw [List.getElem?_set_ne (by omega : pos ≠ (i - 1) / 2)] at hpEq
              exact hA i x p hi hipos hx hpEq
    · have hp0 : pos = 0 := by omega
      subst hp0
      simp only [siftdownGo, lt_irrefl, if_false]
      exact setRoot_heapInv l v hUp

theorem pickChild_spec (l : List SyncItem) (pos : Nat) (h : 2 * pos + 1 < l.length) :
    (pickChild l (2 * pos + 1) = 2 * pos + 1 ∨ pickChild l (2 * pos + 1) = 2 * pos + 2) ∧
    pickChild l (2 * pos + 1) < l.length ∧
    (∀ cv, l[pickChild l (2 * pos + 1)]? = some cv →
      ∀ j x, (j = 2 * pos + 1 ∨ j = 2 * pos + 2) → l[j]? = some x →
        cv.priority ≤ x.priority) := by
  cases hc1 : l[2 * pos + 1]? with
  | none =>
    exfalso
    have h2 := List.getElem?_eq_some.mpr ⟨h, rfl⟩
    rw [hc1] at h2
    cases h2
  | some lc =>
    by_cases hr : 2 * pos + 1 + 1 < l.length
    · cases hc2 : l[2 * pos + 1 + 1]? with
      | none =>
        exfalso
        have h2 := List.getElem?_eq_some.mpr ⟨hr, rfl⟩
        rw [hc2] at h2
        cases h2
      | some rc =>
        by_cases hlt : itemLT lc rc = true
        · have hpc : pickChild l (2 * pos + 1) = 2 * pos + 1 := by
            simp [pickChild, hr, hc1, hc2, hlt]
          refine ⟨Or.inl hpc, by omega, ?_⟩
          intro cv hcv j x hj hx
          rw [hpc, hc1] at hcv
          have ecv : lc = cv := by injection hcv
          subst ecv
          rcases hj with hj | hj
          · subst hj
            rw [hc1] at hx
            have ex2 : lc = x := by injection hx
            subst ex2
            omega
          · subst hj
            rw [show 2 * pos + 2 = 2 * pos + 1 + 1 by omega, hc2] at hx
            have ex2 : rc = x := by injection hx
            subst ex2
            have hlc : lc.priority < rc.priority := (itemLT_iff lc rc).mp hlt
            omega
        · have hpc : pickChild l (2 * pos + 1) = 2 * pos + 1 + 1 := by
            simp [pickChild, hr, hc1, hc2, hlt]
          refine ⟨Or.inr (by omega), by omega, ?_⟩
          intro cv hcv j x hj hx
          rw [hpc, hc2] at hcv
          have ecv : rc = cv := by injection hcv
          subst ecv
          have hge : rc.priority ≤ lc.priority := by
            have : ¬ lc.priority < rc.priority :=
              fun hh => hlt ((itemLT_iff lc rc).mpr hh)
            omega
          rcases hj with hj | hj
          · subst hj
            rw [hc1] at hx
            have ex2 : lc = x := by injection hx
            subst ex2
            omega
          · subst hj
            rw [show 2 * pos + 2 = 2 * pos + 1 + 1 by omega, hc2] at hx
            have ex2 : rc = x := by injection hx
            subst ex2
            omega
    · have hpc : pickChild l (2 * pos + 1) = 2 * pos + 1 := by
        simp [pickChild, hr]
      refine ⟨Or.inl hpc, by omega, ?_⟩
      intro cv hcv j x hj hx
      rw [hpc, hc1] at hcv
      have ecv : lc = cv := by injection hcv
      subst ecv
      rcases hj with hj | hj
      · subst hj
        rw [hc1] at hx
        have ex2 : lc = x := by injection hx
        subst ex2
        omega
      · subst hj
        exfalso
        have hxlen := (List.getElem?_eq_some.mp hx).1
        omega

theorem siftupGo_spec : ∀ (fuel : Nat) (l : List SyncItem) (pos : Nat),
    l.length ≤ fuel + pos → pos < l.length → DownInv l pos →
    DownInv (siftupGo fuel l pos).1 (siftupGo fuel l pos).2 ∧
    ¬ (2 * (siftupGo fuel l pos).2 + 1 < (siftupGo fuel l pos).1.length) ∧
    (siftupGo fuel l pos).2 < (siftupGo fuel l pos).1.length := by
  intro fuel
  induction fuel with
  | zero =>
    intro l pos hfuel hpos hInv
    exfalso
    omega
  | succ fuel ih =>
    intro l pos hfuel hpos hInv
    by_cases hloop : 2 * pos + 1 < l.length
    · obtain ⟨hcrange, hclen, hcmin⟩ := pickChild_spec l pos hloop
      cases hcv : l[pickChild l (2 * pos + 1)]? with
      | none =>
        exfalso
        have h2 := List.getElem?_eq_some.mpr ⟨hclen, rfl⟩
        rw [hcv] at h2
        cases h2
      | some cv =>
        have hcmin2 := hcmin cv hcv
        simp only [siftupGo, hloop, if_true, hcv]
        obtain ⟨hAd, hDd⟩ := hInv
        apply ih (l.set pos cv) (pickChild l (2 * pos + 1))
          (by rw [List.length_set]; omega) (by rw [List.length_set]; omega)
        constructor
        · -- heap property on edges whose parent is not the new hole
          intro i x p hi hpar hx hpEq
          by_cases hip : (i - 1) / 2 = pos
          · rw [hip, List.getElem?_set_self hpos] at hpEq
            have ep : cv = p := by injection hpEq
            subst ep
            have hch : i = 2 * pos + 1 ∨ i = 2 * pos + 2 :=
              (childOfParent i pos hi).mp hip
            rw [List.getElem?_set_ne (by omega : pos ≠ i)] at hx
            exact hcmin2 i x hch hx
          · by_cases hipos : i = pos
            · subst hipos
              rw [List.getElem?_set_self hpos] at hx
              have ex : cv = x := by injection hx
              subst ex
              rw [List.getElem?_set_ne (by omega : i ≠ (i - 1) / 2)] at hpEq
              exact hDd hi (pickChild l (2 * i + 1)) cv p hcrange hcv hpEq
            · rw [List.getElem?_set_ne (by omega : pos ≠ i)] at hx
              rw [List.getElem?_set_ne (by omega : pos ≠ (i - 1) / 2)] at hpEq
              exact hAd i x p hi hip hx hpEq
        · -- parent of the new hole below its children
          intro hc0 c₂ x p hch2 hx hpEq
          have hcp : (pickChild l (2 * pos + 1) - 1) / 2 = pos :=
            (childOfParent (pickChild l (2 * pos + 1)) pos (by omega)).mpr hcrange
          rw [hcp, List.getElem?_set_self hpos] at hpEq
          have ep : cv = p := by injection hpEq
          subst ep
          rw [List.getElem?_set_ne (by omega : pos ≠ c₂)] at hx
          have hc2p : (c₂ - 1) / 2 = pickChild l (2 * pos + 1) :=
            (childOfParent c₂ (pickChild l (2 * pos + 1)) (by omega)).mpr hch2
          exact hAd c₂ x cv (by omega) (by rw [hc2p]; omega) hx (by rw [hc2p]; exact hcv)
    · simp only [siftupGo]
      rw [if_neg hloop]
      exact ⟨hInv, hloop, hpos⟩

theorem siftup_heapInv (l : List SyncItem) (hlen : 0 < l.length) (hInv : DownInv l 0) :
    HeapInv (siftup l 0) := by
  unfold siftup
  cases hp : l[0]? with
  | none =>
    exfalso
    have h2 := List.getElem?_eq_some.mpr ⟨hlen, rfl⟩
    rw [hp] at h2
    cases h2
  | some newitem =>
    obtain ⟨hD, hleaf, hposlt⟩ := siftupGo_spec l.length l 0 (by omega) hlen hInv
    have hlen2 : (siftupGo l.length l 0).1.length = l.length := siftupGo_length l.length l 0
    apply siftdownGo_heapInv (siftupGo l.length l 0).2
      ((siftupGo l.length l 0).1.set (siftupGo l.length l 0).2 newitem)
      (siftupGo l.length l 0).2 newitem (le_refl _) (by rw [List.length_set]; omega)
    refine ⟨?_, ?_, ?_⟩
    · intro i x p hi hneq hx hpEq
      have hibd : i < (siftupGo l.length l 0).1.length := by
        have := (List.getElem?_eq_some.mp hx).1
        rwa [List.length_set] at this
      rw [List.getElem?_set_ne (fun e => hneq e.symm)] at hx
      by_cases hpar : (i - 1) / 2 = (siftupGo l.length l 0).2
      · exfalso
        have hch : i = 2 * (siftupGo l.length l 0).2 + 1 ∨
            i = 2 * (siftupGo l.length l 0).2 + 2 :=
          (childOfParent i (siftupGo l.length l 0).2 hi).mp hpar
        omega
      · rw [List.getElem?_set_ne (fun e => hpar e.symm)] at hpEq
        exact hD.1 i x p hi hpar hx hpEq
    · intro c x hc hx
      exfalso
      have hcb := (List.getElem?_eq_some.mp hx).1
      rw [List.length_set] at hcb
      omega
    · intro h0 c x p hc hx hpEq
      exfalso
      have hcb := (List.getElem?_eq_some.mp hx).1
      rw [List.length_set] at hcb
      omega

theorem heappop_heapInv (l : List SyncItem) (x : SyncItem) (r : List SyncItem)
    (hInv : HeapInv l) (h : heappop l = some (x, r)) : HeapInv r := by
  unfold heappop at h
  cases hl : l.getLast? with
  | none => rw [hl] at h; cases h
  | some lastelt =>
    rw [hl] at h
    dsimp only at h
    cases h0 : l.dropLast[0]? with
    | none =>
      rw [h0] at h
      injection h with h1
      have hr : r = [] := (Prod.mk.injEq _ _ _ _ ▸ h1).2.symm
      subst hr
      intro i y p _ hy _
      simp at hy
    | some returnitem =>
      rw [h0] at h
      injection h with h1
      have hr : r = siftup (l.dropLast.set 0 lastelt) 0 :=
        (Prod.mk.injEq _ _ _ _ ▸ h1).2.symm
      subst hr
      have hrest0 : 0 < l.dropLast.length := (List.getElem?_eq_some.mp h0).1
      apply siftup_heapInv
      · rw [List.length_set]; omega
      · constructor
        · intro i y p hi hpar hy hpEq
          rw [List.getElem?_set_ne (by omega : (0 : Nat) ≠ i)] at hy
          rw [List.getElem?_set_ne (fun e => hpar e.symm)] at hpEq
          have hy2 : l[i]? = some y := by
            rw [List.getElem?_dropLast] at hy
            by_cases hib : i < l.length - 1
            · rwa [if_pos hib] at hy
            · rw [if_neg hib] at hy; cases hy
          have hp2 : l[(i - 1) / 2]? = some p := by
            rw [List.getElem?_dropLast] at hpEq
            by_cases hpb : (i - 1) / 2 < l.length - 1
            · rwa [if_pos hpb] at hpEq
            · rw [if_neg hpb] at hpEq; cases hpEq
          exact hInv i y p hi hy2 hp2
        · intro h00
          exact absurd h00 (by omega)

theorem heappush_heapInv (l : List SyncItem) (x : SyncItem) (hInv : HeapInv l) :
    HeapInv (heappush l x) := by
  unfold heappush
  apply siftdownGo_heapInv l.length (l ++ [x]) l.length x (le_refl _) (by simp)
  refine ⟨?_, ?_, ?_⟩
  · intro i y p hi hneq hy hpEq
    have hibd : i < l.length + 1 := by
      have := (List.getElem?_eq_some.mp hy).1
      rwa [List.length_append, List.length_cons, List.length_nil] at this
    rw [List.getElem?_append_left (by omega)] at hy
    rw [List.getElem?_append_left (by omega)] at hpEq
    exact hInv i y p hi hy hpEq
  · intro c y hc hy
    exfalso
    have hcb := (List.getElem?_eq_some.mp hy).1
    rw [List.length_append, List.length_cons, List.length_nil] at hcb
    omega
  · intro h0 c y p hc hy hpEq
    exfalso
    have hcb := (List.getElem?_eq_some.mp hy).1
    rw [List.length_append, List.length_cons, List.length_nil] at hcb
    omega

theorem heapInv_root_le (l : List SyncItem) (hInv : HeapInv l) :
    ∀ (i : Nat) (x rt : SyncItem), l[i]? = some x → l[0]? = some rt →
      rt.priority ≤ x.priority := by
  intro i
  induction i using Nat.strong_induction_on with
  | _ i ih =>
    intro x rt hx hrt
    by_cases hi : i = 0
    · subst hi
      have e : x = rt := by
        have := hx.symm.trans hrt
        injection this
      subst e
      exact le_refl _
    · have hi0 : 0 < i := by omega
      have hparlen : (i - 1) / 2 < l.length := by
        have := (List.getElem?_eq_some.mp hx).1
        omega
      cases hp : l[(i - 1) / 2]? with
      | none =>
        exfalso
        have h2 := List.getElem?_eq_some.mpr ⟨hparlen, rfl⟩
        rw [hp] at h2
        cases h2
      | some p =>
        have h1 := hInv i x p hi0 hx hp
        have h2 := ih ((i - 1) / 2) (by omega) p rt hp hrt
        omega

theorem heappop_root (l : List SyncItem) (x : SyncItem) (r : List SyncItem)
    (h : heappop l = some (x, r)) : l[0]? = some x := by
  unfold heappop at h
  cases hl : l.getLast? with
  | none => rw [hl] at h; cases h
  | some lastelt =>
    rw [hl] at h
    dsimp only at h
    have hlast : l[l.length - 1]? = some lastelt := (List.getLast?_eq_getElem? l) ▸ hl
    have hlen : 0 < l.length := by
      have := (List.getElem?_eq_some.mp hlast).1
      omega
    cases h0 : l.dropLast[0]? with
    | none =>
      rw [h0] at h
      injection h with h1
      have hx : lastelt = x := (Prod.mk.injEq _ _ _ _ ▸ h1).1
      have hrest : l.dropLast.length ≤ 0 := by
        by_contra hc
        have h2 : (0 : Nat) < l.dropLast.length := by omega
        have h3 := List.getElem?_eq_some.mpr ⟨h2, rfl⟩
        rw [h0] at h3
        cases h3
      rw [List.length_dropLast] at hrest
      rw [show (0 : Nat) = l.length - 1 by omega, hlast, hx]
    | some returnitem =>
      rw [h0] at h
      injection h with h1
      have hx : returnitem = x := (Prod.mk.injEq _ _ _ _ ▸ h1).1
      have hrest0 : 0 < l.dropLast.length := (List.getElem?_eq_some.mp h0).1
      rw [List.length_dropLast] at hrest0
      have h2 : l.dropLast[0]? = l[0]? := by
        rw [List.getElem?_dropLast, if_pos (by omega)]
      rw [← h2, h0, hx]

theorem mem_of_mem_siftup (l : List SyncItem) (pos : Nat) (y : SyncItem)
    (hy : y ∈ siftup l pos) : y ∈ l := by
  unfold siftup at hy
  cases hp : l[pos]? with
  | none => rwa [hp] at hy
  | some newitem =>
    rw [hp] at hy
    rcases mem_of_mem_siftdownGo pos newitem _ _ _ y hy with h1 | h1
    · rcases List.mem_or_eq_of_mem_set h1 with h2 | h2
      · exact mem_of_mem_siftupGo _ _ _ y h2
      · exact h2 ▸ List.getElem?_mem hp
    · exact h1 ▸ List.getElem?_mem hp

theorem heappop_subset (l : List SyncItem) (x : SyncItem) (r : List SyncItem)
    (h : heappop l = some (x, r)) : ∀ y ∈ r, y ∈ l := by
  unfold heappop at h
  cases hl : l.getLast? with
  | none => rw [hl] at h; cases h
  | some lastelt =>
    rw [hl] at h
    dsimp only at h
    have hlast : l[l.length - 1]? = some lastelt := (List.getLast?_eq_getElem? l) ▸ hl
    cases h0 : l.dropLast[0]? with
    | none =>
      rw [h0] at h
      injection h with h1
      have hr : r = [] := (Prod.mk.injEq _ _ _ _ ▸ h1).2.symm
      subst hr
      intro y hy
      simp at hy
    | some returnitem =>
      rw [h0] at h
      injection h with h1
      have hr : r = siftup (l.dropLast.set 0 lastelt) 0 :=
        (Prod.mk.injEq _ _ _ _ ▸ h1).2.symm
      subst hr
      intro y hy
      rcases List.mem_or_eq_of_mem_set (mem_of_mem_siftup _ _ y hy) with h2 | h2
      · exact List.mem_of_mem_dropLast h2
      · exact h2 ▸ List.getElem?_mem hlast

theorem heappop_min (l : List SyncItem) (x : SyncItem) (r : List SyncItem)
    (hInv : HeapInv l) (h : heappop l = some (x, r)) :
    ∀ y ∈ r, x.priority ≤ y.priority := by
  intro y hy
  obtain ⟨i, hi⟩ := List.mem_iff_getElem?.mp (heappop_subset l x r h y hy)
  exact heapInv_root_le l hInv i y x hi (heappop_root l x r h)

theorem heapDrainGo_subset : ∀ (fuel : Nat) (l : List SyncItem) (y : SyncItem),
    y ∈ heapDrainGo fuel l → y ∈ l := by
  intro fuel
  induction fuel with
  | zero => intro l y hy; simp [heapDrainGo] at hy
  | succ fuel ih =>
    intro l y hy
    cases hp : heappop l with
    | none => simp [heapDrainGo, hp] at hy
    | some xr =>
      obtain ⟨x, r⟩ := xr
      simp only [heapDrainGo, hp] at hy
      rcases List.mem_cons.mp hy with h1 | h1
      · exact h1 ▸ List.getElem?_mem (heappop_root l x r hp)
      · exact heappop_subset l x r hp y (ih r y h1)

theorem heapDrainGo_pairwise : ∀ (fuel : Nat) (l : List SyncItem), HeapInv l →
    List.Pairwise (fun a b => a.priority ≤ b.priority) (heapDrainGo fuel l) := by
  intro fuel
  induction fuel with
  | zero => intro l _; exact List.Pairwise.nil
  | succ fuel ih =>
    intro l hInv
    cases hp : heappop l with
    | none => simp only [heapDrainGo, hp]; exact List.Pairwise.nil
    | some xr =>
      obtain ⟨x, r⟩ := xr
      simp only [heapDrainGo, hp]
      rw [List.pairwise_cons]
      constructor
      · intro y hy
        exact heappop_min l x r hInv hp y (heapDrainGo_subset fuel r y hy)
      · exact ih r (heappop_heapInv l x r hInv hp)

theorem enqueue_heapInv (q : SyncQueue) (p s : String) (pr : Priority) (m : Bool)
    (now : Nat) (h : HeapInv q.heap) :
    HeapInv ((q.enqueue p s pr m now).1).heap := by
  unfold SyncQueue.enqueue
  by_cases hfull : 0 < q.maxsize ∧ q.maxsize ≤ q.heap.length
  · rw [if_pos hfull]
    exact h
  · rw [if_neg hfull]
    exact heappush_heapInv _ _ h

theorem foldl_enqueue_heapInv : ∀ (ops : List EnqueueArgs) (q : SyncQueue),
    HeapInv q.heap →
    HeapInv (ops.foldl
      (fun q a => (q.enqueue a.file_path a.source_label a.priority a.manual a.now).1)
      q).heap := by
  intro ops
  induction ops with
  | nil => intro q hq; exact hq
  | cons a rest ih =>
    intro q hq
    exact ih _ (enqueue_heapInv q a.file_path a.source_label a.priority a.manual a.now hq)

theorem buildQueue_heapInv (maxsize : Nat) (ops : List EnqueueArgs) :
    HeapInv (buildQueue maxsize ops).heap := by
  unfold buildQueue
  apply foldl_enqueue_heapInv
  intro i y p _ hy _
  simp [SyncQueue.empty] at hy

/-- C4 (amended): whatever sequence of enqueues builds the queue, draining it
dequeues the items in non-decreasing priority order — smaller priority value
(Manual=0 before High=1 before Normal=2 before Low=3) always wins.  Ties are
NOT dequeued FIFO: `SyncItem` comparison uses only the priority field (the
enqueue timestamp is `compare=False`) and the heapq binary heap is unstable,
so same-priority items can dequeue out of enqueue order (see the
counterexample). -/
theorem C4_dequeue_priority_sorted (maxsize : Nat) (ops : List EnqueueArgs) :
    List.Pairwise (fun a b => a.priority ≤ b.priority)
      (heapDrain (buildQueue maxsize ops).heap) :=
  heapDrainGo_pairwise _ _ (buildQueue_heapInv maxsize ops)

/-- C4 counterexample: four items of equal priority enqueued as e1, e2, e3,
e4 (with increasing timestamps) dequeue as e1, e3, e2, e4 — not in enqueue
order, contradicting the claimed FIFO tie-break by enqueue timestamp. -/
theorem C4_fifo_violation :
    (heapDrain (buildQueue 0
        [⟨"e1", "s", Priority.normal, false, 1⟩, ⟨"e2", "s", Priority.normal, false, 2⟩,
         ⟨"e3", "s", Priority.normal, false, 3⟩, ⟨"e4", "s", Priority.normal, false, 4⟩]).heap).map
      (fun x => x.file_path) = ["e1", "e3", "e2", "e4"] ∧
    (["e1", "e3", "e2", "e4"] : List String) ≠ ["e1", "e2", "e3", "e4"] := by
  decide
